import Mathlib

/-!
Verification development for the Fynn Intelligence Layer orchestration core.

The Python source is shallowly embedded: pure fragments become Lean
functions over `String`, `List`, `ℚ` and an explicit `Json` value type;
stateful fragments (cache, model calls, wall-clock sleeps, thread joins)
become explicit state passing with oracle functions for the external
collaborators (the generative-model capability, the download capability,
the cache store).  Machine floats of the source are modelled by exact
rationals; wall-clock durations are oracle parameters.
-/

namespace Fynn

/-- A JSON value, as produced by Python's `json.loads` and consumed by the
response normalizers.  Objects keep their key order (Python dicts are
insertion ordered). -/
inductive Json where
  | null : Json
  | bool (b : Bool) : Json
  | num (q : ℚ) : Json
  | str (s : String) : Json
  | arr (items : List Json) : Json
  | obj (fields : List (String × Json)) : Json

/-- Python truthiness of a JSON value (`if parsed:`, `x or y`): `None`,
`False`, `0`, `""`, `[]` and `{}` are falsy, everything else truthy. -/
def Json.truthy : Json → Bool
  | .null => false
  | .bool b => b
  | .num q => if q = 0 then false else true
  | .str s => if s = "" then false else true
  | .arr items => !items.isEmpty
  | .obj fields => !fields.isEmpty

/-- `d.get(k)` on a Python dict: `None` when the key is absent. -/
def Json.get : Json → String → Option Json
  | .obj fields, k => fields.lookup k
  | _, _ => none

/-- Python's `a or b` over optional JSON values (`None` is falsy): the left
value when truthy, otherwise the right value verbatim. -/
def pyOr (a b : Option Json) : Option Json :=
  match a with
  | some j => if j.truthy then some j else b
  | none => b

/-- `structuredOutput/summary.py`: pydantic model `SummaryModel`. -/
structure SummaryModel where
  title : Option String
  summary : String
  key_points : List String
  recommended_charts : List String
  deriving Repr, DecidableEq

/-- `structuredOutput/recommendations.py`: pydantic model `RecommendationModel`. -/
structure RecommendationModel where
  recommendations : List String
  deriving Repr, DecidableEq

/-- `structuredOutput/visuals.py`: pydantic model `ChartSpec`; the `data`
field holds an optional Chart.js-style JSON mapping. -/
structure ChartSpec where
  chart_type : String
  purpose : Option String
  x_axis : Option String
  y_axis : Option String
  notes : Option String
  data : Option Json

/-- The value carried in a `ServiceResult.data` slot (typed `Any` in the
source): one of the three services' typed results, a plain JSON value (as
obtained after a cache round trip), or Python `None`. -/
inductive Data where
  | none : Data
  | summary (m : SummaryModel) : Data
  | recs (m : RecommendationModel) : Data
  | charts (cs : List ChartSpec) : Data
  | raw (j : Json) : Data

/-- `orchestrator.py` / `fast_orchestrator.py`: pydantic model
`ServiceResult`.  `execution_time` (a wall-clock float in the source) is an
exact rational here; theorems treat measured durations as oracle inputs. -/
structure ServiceResult where
  success : Bool
  data : Data
  execution_time : ℚ
  error_message : Option String

/-! ### Python string primitives -/

/-- Python `str.lower()`; the source only lowercases ASCII header names and
error messages. -/
def pyLower (s : String) : String := String.mk (s.data.map Char.toLower)

/-- Whitespace trim on a character list (both ends). -/
def trimChars (cs : List Char) : List Char :=
  ((cs.dropWhile Char.isWhitespace).reverse.dropWhile Char.isWhitespace).reverse

/-- Substring occurrence over character lists. -/
def listContainsSub (needle : List Char) : List Char → Bool
  | [] => needle.isEmpty
  | c :: rest => needle.isPrefixOf (c :: rest) || listContainsSub needle rest

/-- Python's `needle in haystack` substring test. -/
def containsStr (haystack needle : String) : Bool :=
  listContainsSub needle.toList haystack.toList

/-- Python `s.count(c)` for a single-character argument. -/
def countChar (s : String) (c : Char) : Nat := s.toList.count c

/-- Python `c in s` for a single character. -/
def hasChar (s : String) (c : Char) : Bool := s.toList.contains c

/-- Python `s[:n]` (slicing counts code points). -/
def pySlice (s : String) (n : Nat) : String := String.mk (s.toList.take n)

/-- Worker for `pySplitlines`. -/
def pySplitlinesAux : List Char → List Char → List String
  | [], acc => if acc.isEmpty then [] else [String.mk acc.reverse]
  | '\r' :: '\n' :: rest, acc => String.mk acc.reverse :: pySplitlinesAux rest []
  | c :: rest, acc =>
    if c = '\n' || c = '\r' then String.mk acc.reverse :: pySplitlinesAux rest []
    else pySplitlinesAux rest (c :: acc)

/-- Python `str.splitlines()`, restricted to the `\n`, `\r` and `\r\n`
boundaries (the only line boundaries arising in this development); a
trailing boundary produces no extra empty line. -/
def pySplitlines (s : String) : List String := pySplitlinesAux s.toList []

/-- Python `str.strip()` truthiness helper: whether the value is non-blank
after stripping surrounding whitespace. -/
def nonBlank (s : String) : Bool := !(trimChars s.data).isEmpty

/-! ### Kernel-computable rational arithmetic

Core `Rat.add`/`Rat.mul`/`Rat.inv`/`Rat.sub` are `@[irreducible]`, which
blocks `decide`/`rfl` evaluation of concrete runs.  The embedding
therefore computes with the `mkRat`-based equivalents below; the bridge
lemmas identify them with the standard field operations, so symbolic
theorems can be stated over `+`/`*`/`/`. -/

/-- Computable `a + b` on `ℚ`. -/
def qAdd (a b : ℚ) : ℚ := mkRat (a.num * b.den + b.num * a.den) (a.den * b.den)

/-- Computable `a - b` on `ℚ`. -/
def qSub (a b : ℚ) : ℚ := mkRat (a.num * b.den - b.num * a.den) (a.den * b.den)

/-- Computable `a * b` on `ℚ`. -/
def qMul (a b : ℚ) : ℚ := mkRat (a.num * b.num) (a.den * b.den)

/-- Computable `a / b` on `ℚ` (`0` for `b = 0`, as in `Rat.div`). -/
def qDiv (a b : ℚ) : ℚ :=
  if b.num < 0 then mkRat (-(a.num * (b.den : Int))) (a.den * b.num.natAbs)
  else mkRat (a.num * (b.den : Int)) (a.den * b.num.natAbs)

/-- Computable `-a` on `ℚ`. -/
def qNeg (a : ℚ) : ℚ := Rat.neg a

/-- Computable embedding of `Nat` into `ℚ`. -/
def qOfNat (n : Nat) : ℚ := mkRat n 1

/-- Computable Boolean `a ≤ b` on `ℚ`. -/
def qLe (a b : ℚ) : Bool := !(Rat.blt b a)

/-- Computable binary minimum on `ℚ`. -/
def qMin (a b : ℚ) : ℚ := if qLe a b then a else b

/-- Computable binary maximum on `ℚ`. -/
def qMax (a b : ℚ) : ℚ := if qLe b a then a else b

theorem qAdd_eq (a b : ℚ) : qAdd a b = a + b := by
  rw [qAdd, Rat.mkRat_eq_divInt]
  rw [show a + b = Rat.divInt a.num a.den + Rat.divInt b.num b.den by
        rw [Rat.num_divInt_den, Rat.num_divInt_den]]
  rw [Rat.divInt_add_divInt _ _ (Int.natCast_ne_zero.mpr a.den_nz)
        (Int.natCast_ne_zero.mpr b.den_nz)]
  push_cast
  ring_nf

theorem qSub_eq (a b : ℚ) : qSub a b = a - b := by
  rw [qSub, Rat.mkRat_eq_divInt]
  rw [show a - b = Rat.divInt a.num a.den - Rat.divInt b.num b.den by
        rw [Rat.num_divInt_den, Rat.num_divInt_den]]
  rw [Rat.divInt_sub_divInt _ _ (Int.natCast_ne_zero.mpr a.den_nz)
        (Int.natCast_ne_zero.mpr b.den_nz)]
  push_cast
  ring_nf

theorem qMul_eq (a b : ℚ) : qMul a b = a * b := by
  rw [qMul, Rat.mkRat_eq_divInt]
  rw [show a * b = Rat.divInt a.num a.den * Rat.divInt b.num b.den by
        rw [Rat.num_divInt_den, Rat.num_divInt_den]]
  rw [Rat.divInt_mul_divInt _ _ (Int.natCast_ne_zero.mpr a.den_nz)
        (Int.natCast_ne_zero.mpr b.den_nz)]
  push_cast
  ring_nf

theorem qNeg_eq (a : ℚ) : qNeg a = -a := rfl

theorem qDiv_eq (a b : ℚ) : qDiv a b = a / b := by
  rw [Rat.div_def', qDiv]
  by_cases hb : b.num < 0
  · simp only [hb, if_true]
    rw [Rat.mkRat_eq_divInt]
    rw [show ((a.den * b.num.natAbs : Nat) : Int) = (a.den : Int) * (b.num.natAbs : Int) by push_cast; ring]
    rw [show (b.num.natAbs : Int) = -b.num by omega]
    rw [show (a.den : Int) * -b.num = -((a.den : Int) * b.num) by ring]
    rw [Rat.divInt_neg', Int.neg_neg]
  · simp only [hb, if_false]
    rw [Rat.mkRat_eq_divInt]
    rw [show ((a.den * b.num.natAbs : Nat) : Int) = (a.den : Int) * (b.num.natAbs : Int) by push_cast; ring]
    rw [show (b.num.natAbs : Int) = b.num by omega]

/-- `mkRat` as a standard-field quotient. -/
theorem mkRat_eq_q (n : Int) (d : Nat) : mkRat n d = (n : ℚ) / (d : ℚ) := by
  rw [Rat.mkRat_eq_divInt, Rat.divInt_eq_div]
  push_cast
  ring_nf

theorem qOfNat_eq (n : Nat) : qOfNat n = (n : ℚ) := by
  rw [qOfNat, mkRat_eq_q]
  simp

theorem qLe_iff (a b : ℚ) : qLe a b = true ↔ a ≤ b := by
  rw [qLe, Bool.not_eq_true']
  exact Iff.rfl

theorem qMin_eq (a b : ℚ) : qMin a b = min a b := by
  rw [qMin, min_def]
  by_cases h : a ≤ b
  · rw [if_pos ((qLe_iff a b).mpr h), if_pos h]
  · rw [if_neg (fun hh => h ((qLe_iff a b).mp hh)), if_neg h]

theorem qMax_eq (a b : ℚ) : qMax a b = max a b := by
  rw [qMax, max_def]
  rcases le_total a b with h | h
  · by_cases he : b ≤ a
    · rw [if_pos ((qLe_iff b a).mpr he), if_pos h, le_antisymm h he]
    · rw [if_neg (fun hh => he ((qLe_iff b a).mp hh)), if_pos h]
  · rw [if_pos ((qLe_iff b a).mpr h)]
    by_cases he : a ≤ b
    · rw [if_pos he, le_antisymm he h]
    · rw [if_neg he]

/-! ### Python `float()` on decimal literals

Models `float(s)`: surrounding whitespace is stripped, then an optional
sign, a decimal mantissa (`digits`, `digits.digits`, `.digits` or
`digits.`) and an optional exponent are accepted.  The `inf`/`nan`/hex
and underscore forms never arise from the analyzed CSV data and are
rejected. -/

/-- Digits to a natural number (most significant first). -/
def digitsToNat (cs : List Char) : Nat := cs.foldl (fun a c => a * 10 + (c.toNat - 48)) 0

/-- Split a character list at the first `e`/`E`. -/
def splitMantExp : List Char → (List Char × Option (List Char))
  | [] => ([], none)
  | c :: rest =>
    if c = 'e' || c = 'E' then ([], some rest)
    else
      let (m, e) := splitMantExp rest
      (c :: m, e)

/-- Parse an unsigned decimal mantissa to an exact rational. -/
def parseMantissa (cs : List Char) : Option ℚ :=
  let ip := cs.takeWhile Char.isDigit
  let rest := cs.dropWhile Char.isDigit
  match rest with
  | [] => if ip.isEmpty then none else some (qOfNat (digitsToNat ip))
  | '.' :: fp' =>
    let fp := fp'.takeWhile Char.isDigit
    let rest2 := fp'.dropWhile Char.isDigit
    if !rest2.isEmpty then none
    else if ip.isEmpty && fp.isEmpty then none
    else some (qAdd (qOfNat (digitsToNat ip)) (qDiv (qOfNat (digitsToNat fp)) (qOfNat (10 ^ fp.length))))
  | _ => none

/-- Parse an optionally signed decimal integer (exponent part). -/
def parseSignedInt (cs : List Char) : Option ℤ :=
  let (sgn, ds) : ℤ × List Char :=
    match cs with
    | '+' :: r => (1, r)
    | '-' :: r => (-1, r)
    | r => (1, r)
  if ds.isEmpty || !ds.all Char.isDigit then none
  else some (sgn * (digitsToNat ds : ℤ))

/-- Python `float(s)` as an exact rational, `none` modelling the
`ValueError` raise. -/
def pyFloat (s : String) : Option ℚ :=
  let cs := trimChars s.data
  let (isNeg, cs') : Bool × List Char :=
    match cs with
    | '+' :: r => (false, r)
    | '-' :: r => (true, r)
    | r => (false, r)
  if cs'.isEmpty then none
  else
    let (m, e?) := splitMantExp cs'
    match parseMantissa m with
    | none => none
    | some mant =>
      let withExp : Option ℚ :=
        match e? with
        | none => some mant
        | some ecs =>
          match parseSignedInt ecs with
          | none => none
          | some ex =>
            if 0 ≤ ex then some (qMul mant (qOfNat (10 ^ ex.toNat)))
            else some (qDiv mant (qOfNat (10 ^ (-ex).toNat)))
      withExp.map (fun v => if isNeg then qNeg v else v)

/-! ### Local CSV analyzer (`tools/fast_llm_client.py`, `analyze_csv_locally`)

The analyzer's statistics come from Python's `statistics` module:
`mean`, `median` (average of the two middle values for an even count),
`min`, `max` and `pstdev` (population standard deviation).  All are exact
rationals here except the standard deviation: the square root of a
rational is irrational in general, so the `std_dev` slot of `NumStats`
stores the *square* of `pstdev`, i.e. the exact population variance
`Σ (x - mean)² / n`; the guard `pstdev(values) if len(values) > 1 else 0`
of the source is preserved verbatim. -/

/-- Per-column numeric statistics of `analyze_csv_locally` (`std_dev`
stores the population variance, see the section comment). -/
structure NumStats where
  mean : ℚ
  median : ℚ
  min : ℚ
  max : ℚ
  std_dev : ℚ
  deriving Repr, DecidableEq

/-- Per-column categorical statistics of `analyze_csv_locally`. -/
structure CatStats where
  unique_values : Nat
  most_common : List (String × Nat)
  deriving Repr, DecidableEq

/-- The dict returned by `analyze_csv_locally` on success
(`headers`/`row_count`/`numeric_columns`/`categorical_columns`/`sample_rows`). -/
structure CsvProfile where
  headers : List String
  row_count : Nat
  numeric_columns : List (String × NumStats)
  categorical_columns : List (String × CatStats)
  sample_rows : List (List String)
  deriving Repr, DecidableEq

/-- Result of `analyze_csv_locally`: a profile, or the `{"error": ...}`
dict. -/
inductive LocalAnalysis where
  | ok (p : CsvProfile)
  | err (msg : String)
  deriving Repr, DecidableEq

/-- Python dict assignment `d[k] = v`: update in place when the key exists
(keeping its position), else append (dicts are insertion ordered). -/
def dictInsert {β : Type} (d : List (String × β)) (k : String) (v : β) : List (String × β) :=
  if (d.lookup k).isSome then d.map (fun p => if p.1 = k then (k, v) else p) else d ++ [(k, v)]

/-- Sum of a list of rationals. -/
def listSum (l : List ℚ) : ℚ := l.foldl qAdd 0

/-- `statistics.mean`. -/
def meanOf (l : List ℚ) : ℚ := qDiv (listSum l) (qOfNat l.length)

/-- Minimum of a list (`min(values)`); `0` for `[]`, which the source
never evaluates. -/
def qMinList : List ℚ → ℚ
  | [] => 0
  | x :: xs => xs.foldl qMin x

/-- Maximum of a list (`max(values)`); `0` for `[]`, which the source
never evaluates. -/
def qMaxList : List ℚ → ℚ
  | [] => 0
  | x :: xs => xs.foldl qMax x

/-- Stable ascending insertion. -/
def insertAsc (x : ℚ) : List ℚ → List ℚ
  | [] => [x]
  | y :: ys => if qLe x y then x :: y :: ys else y :: insertAsc x ys

/-- Ascending sort (insertion sort), modelling the sort inside
`statistics.median`. -/
def sortAsc (l : List ℚ) : List ℚ := l.foldr insertAsc []

/-- `statistics.median`: middle value of the sorted list, or the average
of the two middle values for an even count. -/
def medianOf (l : List ℚ) : ℚ :=
  let s := sortAsc l
  let n := s.length
  if n % 2 = 1 then s.getD (n / 2) 0
  else qDiv (qAdd (s.getD (n / 2 - 1) 0) (s.getD (n / 2) 0)) (qOfNat 2)

/-- Exact population variance `Σ (x - mean)² / n`; `pstdev` of the source
is its square root. -/
def pvarianceOf (l : List ℚ) : ℚ :=
  qDiv (listSum (l.map (fun x => qMul (qSub x (meanOf l)) (qSub x (meanOf l))))) (qOfNat l.length)

/-- The stats dict built for a numeric column (see `NumStats` on the
`std_dev` slot). -/
def mkNumStats (vs : List ℚ) : NumStats :=
  ⟨meanOf vs, medianOf vs, qMinList vs, qMaxList vs,
   if 1 < vs.length then pvarianceOf vs else 0⟩

/-- `[float(row[i]) for row in data_rows if i < len(row) and row[i].strip()]`:
`none` models the `ValueError` raised by `float` at the first unparsable
non-blank value, which discards the whole column. -/
def colFloats (dataRows : List (List String)) (i : Nat) : Option (List ℚ) :=
  match dataRows with
  | [] => some []
  | row :: rs =>
    if h : i < row.length then
      let v := row.get ⟨i, h⟩
      if nonBlank v then
        match pyFloat v with
        | some q => (colFloats rs i).map (q :: ·)
        | none => none
      else colFloats rs i
    else colFloats rs i

/-- `[row[i] for row in data_rows if i < len(row)]` (raw column values,
blanks included). -/
def colRaw (dataRows : List (List String)) (i : Nat) : List String :=
  dataRows.filterMap (fun row => if h : i < row.length then some (row.get ⟨i, h⟩) else none)

/-- The parsed non-blank values of a column: what the float comprehension
evaluates to when no value raises. -/
def colVals (dataRows : List (List String)) (i : Nat) : List ℚ :=
  ((colRaw dataRows i).filter nonBlank).filterMap pyFloat

/-- Specification wording for the numeric statistics: exact mean, median,
minimum, maximum and population standard deviation of the values (the
`std_dev` slot stores the squared deviation, see `NumStats`), `0` for a
single-value column. -/
def specNumStats (vs : List ℚ) (ns : NumStats) : Prop :=
  ns.mean = vs.sum / (vs.length : ℚ) ∧
  (∃ s, List.Perm s vs ∧ s.Sorted (· ≤ ·) ∧
    ns.median = if s.length % 2 = 1 then s.getD (s.length / 2) 0
      else (s.getD (s.length / 2 - 1) 0 + s.getD (s.length / 2) 0) / 2) ∧
  ns.min ∈ vs ∧ (∀ x ∈ vs, ns.min ≤ x) ∧
  ns.max ∈ vs ∧ (∀ x ∈ vs, x ≤ ns.max) ∧
  ns.std_dev = (if vs.length ≤ 1 then 0
    else (vs.map (fun x => (x - vs.sum / (vs.length : ℚ)) ^ 2)).sum / (vs.length : ℚ))

/-- Specification wording for a categorical column: the distinct-value
count, and the top-5 most frequent raw values with their exact occurrence
counts, in descending count order with ties broken by first occurrence. -/
def specMostCommon (raw : List String) (cs : CatStats) : Prop :=
  cs.unique_values = raw.toFinset.card ∧
  cs.most_common.length = min 5 raw.toFinset.card ∧
  (∀ p ∈ cs.most_common, p.1 ∈ raw ∧ p.2 = raw.count p.1) ∧
  (cs.most_common.map Prod.fst).Nodup ∧
  cs.most_common.Pairwise
    (fun a b => b.2 < a.2 ∨ (a.2 = b.2 ∧ raw.indexOf a.1 < raw.indexOf b.1)) ∧
  (∀ v ∈ raw, v ∉ cs.most_common.map Prod.fst →
    ∀ p ∈ cs.most_common, raw.count v ≤ p.2)

/-- One `enumerate(headers)` loop assigning dict entries: `f` gives the
value stored for a column, or `none` when the loop skips it. -/
def dictFold {β : Type} (f : Nat × String → Option β) (l : List (Nat × String)) :
    List (String × β) :=
  l.foldl (fun acc p => match f p with | some v => dictInsert acc p.2 v | none => acc) []

/-- The stats entry the numeric loop assigns for one column (`none` when
the float comprehension raises or yields no values). -/
def numColValue (dataRows : List (List String)) (p : Nat × String) : Option NumStats :=
  match colFloats dataRows p.1 with
  | some vs => if vs.isEmpty then none else some (mkNumStats vs)
  | none => none

/-- The `num_columns` dict: a column is added exactly when every sampled
non-blank value parses as a float and at least one such value exists. -/
def numericColumnsOf (headers : List String) (dataRows : List (List String)) :
    List (String × NumStats) :=
  dictFold (numColValue dataRows) headers.enum

/-- One step of the incremental `value_counts` dict build. -/
def countsStep (d : List (String × Nat)) (v : String) : List (String × Nat) :=
  match d.lookup v with
  | some c => dictInsert d v (c + 1)
  | none => d ++ [(v, 1)]

/-- The incremental `value_counts` dict build of the categorical branch. -/
def countsOf (values : List String) : List (String × Nat) :=
  values.foldl countsStep []

/-- The key insertion order of the `value_counts` dict: each distinct value
at its first occurrence. -/
def firstSeen (l : List String) : List String :=
  l.foldl (fun acc v => if v ∈ acc then acc else acc ++ [v]) []

/-- Stable descending insertion by count (a later element goes after all
earlier elements of greater-or-equal count). -/
def insertDescBy (x : String × Nat) : List (String × Nat) → List (String × Nat)
  | [] => [x]
  | y :: ys => if y.2 < x.2 then x :: y :: ys else y :: insertDescBy x ys

/-- `sorted(value_counts.items(), key=lambda x: x[1], reverse=True)`:
Python's sort is stable, modelled by stable insertion. -/
def sortDesc (l : List (String × Nat)) : List (String × Nat) :=
  l.foldl (fun acc x => insertDescBy x acc) []

/-- The stats entry the categorical loop assigns for one column (`none`
when the header is already in `num_columns`). -/
def catColValue (dataRows : List (List String)) (numCols : List (String × NumStats))
    (p : Nat × String) : Option CatStats :=
  if (numCols.lookup p.2).isSome then none
  else
    let counts := countsOf (colRaw dataRows p.1)
    some (CatStats.mk counts.length ((sortDesc counts).take 5))

/-- The `cat_columns` dict: every header not in `num_columns`, with its
distinct-value count and the five most frequent raw values. -/
def categoricalColumnsOf (headers : List String) (dataRows : List (List String))
    (numCols : List (String × NumStats)) : List (String × CatStats) :=
  dictFold (catColValue dataRows numCols) headers.enum

/-- `analyze_csv_locally` after row parsing: `rows[0]` raises `IndexError`
(`"list index out of range"`) on an empty row list, caught into the
`{"error": ...}` dict. -/
def analyzeCsvRows (rows : List (List String)) : LocalAnalysis :=
  match rows with
  | [] => .err "Error analyzing CSV: list index out of range"
  | headers :: dataRows =>
    let num := numericColumnsOf headers dataRows
    .ok ⟨headers, dataRows.length, num, categoricalColumnsOf headers dataRows num,
         dataRows.take 5⟩

/-- Comma split of one line (Python `line.split(",")` / one `csv.reader`
row without quoting). -/
def splitCommaAux : List Char → List Char → List String
  | [], acc => [String.mk acc.reverse]
  | ',' :: rest, acc => String.mk acc.reverse :: splitCommaAux rest []
  | c :: rest, acc => splitCommaAux rest (c :: acc)

/-- `csv.reader(io.StringIO(csv_data))` for inputs without quote
characters (the only inputs the claims evaluate): lines split at commas,
an empty line yielding an empty row; the quoting rules of `csv` are not
modelled. -/
def csvParseSimple (s : String) : List (List String) :=
  (pySplitlines s).map (fun line => if line = "" then [] else splitCommaAux line.data [])

/-- `analyze_csv_locally` on text input. -/
def analyzeCsvLocally (s : String) : LocalAnalysis := analyzeCsvRows (csvParseSimple s)

/-! ### Fast-path synthesizers (`fast_orchestrator.py`) -/

/-- Python `sep.join(parts)`. -/
def joinWith (sep : String) : List String → String
  | [] => ""
  | [s] => s
  | s :: rest => s ++ sep ++ joinWith sep rest

/-- Python float formatting `f"{x:.2f}"` on an exact rational: round to
two decimals and render with exactly two digits.  (The ties-to-even
behaviour of binary floats is not modelled; no claim evaluates a tie.) -/
def fmt2 (q : ℚ) : String :=
  let n : ℤ := (qAdd (qMul q (qOfNat 100)) (mkRat 1 2)).floor
  let sgn := if n < 0 then "-" else ""
  let m := n.natAbs
  sgn ++ toString (m / 100) ++ "." ++ (if m % 100 < 10 then "0" else "") ++ toString (m % 100)

/-- The `SummaryModel` synthesized locally by `_run_summary_service_fast`. -/
def mkLocalSummary (p : CsvProfile) : SummaryModel :=
  ⟨some ("CSV Data Analysis (" ++ toString p.row_count ++ " rows)"),
   "Dataset with " ++ toString p.row_count ++ " rows and " ++
     toString p.headers.length ++ " columns. Columns include: " ++
     joinWith ", " p.headers,
   ["The dataset contains " ++ toString p.row_count ++ " records",
    toString p.numeric_columns.length ++ " numeric columns and " ++
      toString p.categorical_columns.length ++ " categorical columns"]
   ++ p.numeric_columns.map (fun pr =>
        pr.1 ++ ": Range " ++ fmt2 pr.2.min ++ " to " ++ fmt2 pr.2.max ++
          ", Mean " ++ fmt2 pr.2.mean)
   ++ p.categorical_columns.filterMap (fun pr =>
        match pr.2.most_common with
        | [] => none
        | (v, _) :: _ =>
          some (pr.1 ++ ": " ++ toString pr.2.unique_values ++
            " unique values, most common: " ++ v)),
   []⟩

/-- The three always-appended general procurement recommendations. -/
def generalRecs : List String :=
  ["Establish formal supplier relationship management processes to improve collaboration and performance",
   "Consider implementing an e-procurement system to streamline purchasing processes",
   "Regularly review procurement data to identify cost-saving opportunities and compliance issues"]

/-- The `RecommendationModel` synthesized locally by
`_run_recommendation_service_fast` from header-name heuristics. -/
def mkLocalRecs (p : CsvProfile) : RecommendationModel :=
  let hasAmount := p.headers.any (fun h => pyLower h ∈ ["amount", "cost", "spend", "price"])
  let hasSupplier := p.headers.any (fun h => pyLower h ∈ ["supplier", "vendor", "company"])
  let hasCategory := p.headers.any (fun h => pyLower h ∈ ["category", "type", "group", "product"])
  ⟨(if hasAmount && hasSupplier then
      ["Consider consolidating suppliers to reduce procurement complexity and increase buying power",
       "Implement a spend analysis program to track and optimize procurement costs"]
    else [])
   ++ (if hasCategory then
        ["Develop category-specific sourcing strategies to optimize spend"]
      else [])
   ++ generalRecs⟩

/-- The chart list synthesized locally by `_run_visuals_service_fast`. -/
def mkLocalVisuals (p : CsvProfile) : List ChartSpec :=
  let dateCol := p.headers.find? (fun h =>
    ["date", "time", "year", "month", "day"].any (fun t => containsStr (pyLower h) t))
  let numericCols := p.numeric_columns.map Prod.fst
  let categoricalCols := p.categorical_columns.map Prod.fst
  let barCharts :=
    match categoricalCols, numericCols with
    | catc :: _, numc :: _ =>
      [ChartSpec.mk "bar" (some ("Bar chart showing " ++ numc ++ " by " ++ catc))
        (some catc) (some numc) none
        (some (Json.obj [("labels", .str catc), ("values", .str numc)]))]
    | _, _ => []
  let pieCharts :=
    match categoricalCols with
    | catc :: _ =>
      [ChartSpec.mk "pie" (some ("Pie chart showing distribution of " ++ catc))
        none none (some ("Visual representation of " ++ catc ++ " distribution")) none]
    | _ => []
  let lineCharts :=
    match dateCol, numericCols with
    | some d, numc :: _ =>
      [ChartSpec.mk "line" (some ("Line chart showing " ++ numc ++ " over time"))
        (some d) (some numc) (some ("Trend analysis of " ++ numc ++ " by " ++ d)) none]
    | _, _ => []
  let charts := barCharts ++ pieCharts ++ lineCharts
  if charts.isEmpty then
    [ChartSpec.mk "text_summary"
      (some "This dataset contains primarily textual or non-standard data that requires custom visualization")
      none none none none]
  else charts

/-! ### Content classification (`fast_orchestrator.py`) and UTF-8 -/

/-- UTF-8 continuation byte check. -/
def isCont (b : Nat) : Bool := 0x80 ≤ b && b ≤ 0xBF

/-- Strict UTF-8 decoding of a byte list (as Python `bytes.decode('utf-8')`):
rejects truncated sequences, overlong encodings and surrogates; `none`
models the `UnicodeDecodeError` raise. -/
def utf8DecodeChars : List Nat → Option (List Char)
  | [] => some []
  | b :: rest =>
    if b ≤ 0x7F then (utf8DecodeChars rest).map (Char.ofNat b :: ·)
    else if 0xC2 ≤ b && b ≤ 0xDF then
      match rest with
      | c1 :: rest2 =>
        if isCont c1 then
          (utf8DecodeChars rest2).map (Char.ofNat ((b - 0xC0) * 0x40 + (c1 - 0x80)) :: ·)
        else none
      | [] => none
    else if 0xE0 ≤ b && b ≤ 0xEF then
      match rest with
      | c1 :: c2 :: rest2 =>
        let lo1 := if b = 0xE0 then 0xA0 else 0x80
        let hi1 := if b = 0xED then 0x9F else 0xBF
        if lo1 ≤ c1 && c1 ≤ hi1 && isCont c2 then
          (utf8DecodeChars rest2).map
            (Char.ofNat ((b - 0xE0) * 0x1000 + (c1 - 0x80) * 0x40 + (c2 - 0x80)) :: ·)
        else none
      | _ => none
    else if 0xF0 ≤ b && b ≤ 0xF4 then
      match rest with
      | c1 :: c2 :: c3 :: rest2 =>
        let lo1 := if b = 0xF0 then 0x90 else 0x80
        let hi1 := if b = 0xF4 then 0x8F else 0xBF
        if lo1 ≤ c1 && c1 ≤ hi1 && isCont c2 && isCont c3 then
          (utf8DecodeChars rest2).map
            (Char.ofNat ((b - 0xF0) * 0x40000 + (c1 - 0x80) * 0x1000 +
              (c2 - 0x80) * 0x40 + (c3 - 0x80)) :: ·)
        else none
      | _ => none
    else none

/-- `bytes.decode('utf-8')` to a string. -/
def utf8Decode (b : List Nat) : Option String := (utf8DecodeChars b).map String.mk

/-- `bytes.decode('latin-1', errors='replace')`: total byte-to-codepoint
decoding (latin-1 accepts every byte, so no replacement ever happens). -/
def latin1Decode (b : List Nat) : String := String.mk (b.map (fun n => Char.ofNat (n % 256)))

/-- The byte list of an ASCII string (used to build test inputs). -/
def asciiBytes (s : String) : List Nat := s.toList.map Char.toNat

/-- Raw content handed to the orchestrator: Python `str` or `bytes`. -/
inductive PyContent where
  | str (s : String)
  | bytes (b : List Nat)

/-- The 4-byte `%PDF` magic. -/
def pdfMagic : List Nat := [0x25, 0x50, 0x44, 0x46]

/-- The 2-byte `PK` ZIP magic. -/
def zipMagic : List Nat := [0x50, 0x4B]

/-- Content sniffing of `_detect_mime_type` when no hint is given. -/
def detectSniff : PyContent → String
  | .bytes b =>
    let csvLike :=
      match utf8Decode (b.take 1000) with
      | some sample =>
        let lines := pySplitlines sample
        decide (1 < lines.length) && hasChar (lines.headD "") ','
      | none => false
    if csvLike then "text/csv"
    else if pdfMagic.isPrefixOf b then "application/pdf"
    else if zipMagic.isPrefixOf b then "application/zip"
    else "text/plain"
  | .str s =>
    let lines := (pySplitlines s).take 5
    if decide (1 < lines.length) && hasChar (lines.headD "") ',' then "text/csv"
    else "text/plain"

/-- `_detect_mime_type` of `fast_orchestrator.py`: a truthy (non-empty)
hint is returned verbatim, else the content is sniffed. -/
def detectMime (content : PyContent) (mimeType : Option String) : String :=
  match mimeType with
  | some m => if m = "" then detectSniff content else m
  | none => detectSniff content

/-- First-line comma test of `_is_csv_content` on decoded text. -/
def isCsvText (t : String) : Bool :=
  let lines := pySplitlines t
  decide (1 < lines.length) && decide (2 ≤ countChar (lines.headD "") ',')

/-- `_is_csv_content` of `fast_orchestrator.py` (undecodable bytes are not
CSV). -/
def isCsvContent : PyContent → Bool
  | .bytes b =>
    match utf8Decode (b.take 1000) with
    | some t => isCsvText t
    | none => false
  | .str s => isCsvText (pySlice s 1000)

/-! ### The fast orchestrator (`FastIntelligenceOrchestrator.analyze`)

External collaborators are oracles: the download capability, the
whole-request cache store, the content hashes (`_get_file_id`'s md5), the
three LLM-backed services (each may raise, modelled by `Except`), and the
measured wall-clock duration of each service task. -/

/-- Oracle bundle for the fast orchestrator. -/
structure FastOrchOracles where
  download : String → Except String PyContent
  cache : String → Option (List (String × ServiceResult))
  urlHash : String → String
  contentHash : PyContent → String
  svcSummary : PyContent → String → Except String Data
  svcRecs : PyContent → String → Except String Data
  svcVisuals : PyContent → String → Except String Data
  tSummary : ℚ
  tRecs : ℚ
  tVisuals : ℚ

/-- `_run_summary_service` and friends (parallel path): any exception
raised by the service body is caught into a failed `ServiceResult` with
the service-specific message; the outcome of one service depends on that
service alone. -/
def runServiceCatch (label : String) (svc : Except String Data) (t : ℚ) : ServiceResult :=
  match svc with
  | .ok d => ServiceResult.mk true d t none
  | .error e => ServiceResult.mk false .none t (some (label ++ " service error: " ++ e))

/-- The three parallel-path outcomes keyed by service name (`as_completed`
completes in nondeterministic order, but each key's outcome is a function
of its own service only, so the assembled map is order independent). -/
def parallelOutcomes (s r v : Except String Data) (ts tr tv : ℚ) :
    List (String × ServiceResult) :=
  [("summary", runServiceCatch "Summary" s ts),
   ("recommendations", runServiceCatch "Recommendation" r tr),
   ("visuals", runServiceCatch "Visuals" v tv)]

/-- The parallel path of `analyze` driven by the oracle services. -/
def parallelResults (O : FastOrchOracles) (c : PyContent) (mime : String) :
    List (String × ServiceResult) :=
  parallelOutcomes (O.svcSummary c mime) (O.svcRecs c mime) (O.svcVisuals c mime)
    O.tSummary O.tRecs O.tVisuals

/-- `_run_summary_service_fast`: local synthesis when the profile is
available, else the LLM-backed summary service with errors caught. -/
def runSummaryFast (O : FastOrchOracles) (content : String) (la : LocalAnalysis) :
    ServiceResult :=
  match la with
  | .ok p => ServiceResult.mk true (.summary (mkLocalSummary p)) O.tSummary none
  | .err _ =>
    match O.svcSummary (.str content) "text/csv" with
    | .ok d => ServiceResult.mk true d O.tSummary none
    | .error e =>
      ServiceResult.mk false .none O.tSummary (some ("Fast summary service error: " ++ e))

/-- `_run_recommendation_service_fast`. -/
def runRecsFast (O : FastOrchOracles) (content : String) (la : LocalAnalysis) :
    ServiceResult :=
  match la with
  | .ok p => ServiceResult.mk true (.recs (mkLocalRecs p)) O.tRecs none
  | .err _ =>
    match O.svcRecs (.str content) "text/csv" with
    | .ok d => ServiceResult.mk true d O.tRecs none
    | .error e =>
      ServiceResult.mk false .none O.tRecs (some ("Fast recommendation service error: " ++ e))

/-- `_run_visuals_service_fast`. -/
def runVisualsFast (O : FastOrchOracles) (content : String) (la : LocalAnalysis) :
    ServiceResult :=
  match la with
  | .ok p => ServiceResult.mk true (.charts (mkLocalVisuals p)) O.tVisuals none
  | .err _ =>
    match O.svcVisuals (.str content) "text/csv" with
    | .ok d => ServiceResult.mk true d O.tVisuals none
    | .error e =>
      ServiceResult.mk false .none O.tVisuals (some ("Fast visuals service error: " ++ e))

/-- `_process_csv_fast`: decode, profile locally once, then synthesize the
three outcomes. -/
def processCsvFast (O : FastOrchOracles) (c : PyContent) : List (String × ServiceResult) :=
  let contentStr :=
    match c with
    | .str s => s
    | .bytes b =>
      match utf8Decode b with
      | some s => s
      | none => latin1Decode b
  let la := analyzeCsvLocally contentStr
  [("summary", runSummaryFast O contentStr la),
   ("recommendations", runRecsFast O contentStr la),
   ("visuals", runVisualsFast O contentStr la)]

/-- Observable trace of one `analyze` call: the returned map, the
whole-request cache writes performed, and how many service tasks ran. -/
structure AnalyzeOut where
  result : List (String × ServiceResult)
  cacheWrites : List (String × List (String × ServiceResult))
  serviceRuns : Nat

/-- Python truthiness of the `file_url` argument (`if file_url:`): `None`
and `""` are falsy. -/
def urlTruthy : Option String → Option String
  | some u => if u = "" then none else some u
  | none => none

/-- The single `error` outcome returned when neither `file_url` nor
`content` is supplied. -/
def invalidInputResult : ServiceResult :=
  ServiceResult.mk false .none 0 (some "Either file_url or content must be provided")

/-- The tail of `analyze` once content is resolved: MIME detection, then
the CSV fast path or the three-way parallel path, then the cache write. -/
def fastAnalyzeBody (O : FastOrchOracles) (c : PyContent) (mimeType : Option String)
    (useCache : Bool) (fid : String) : AnalyzeOut :=
  let mime := detectMime c mimeType
  let results :=
    if mime = "text/csv" && isCsvContent c then processCsvFast O c
    else parallelResults O c mime
  AnalyzeOut.mk results (if useCache then [(fid, results)] else []) 3

/-- `FastIntelligenceOrchestrator.analyze`: a truthy URL is used (and the
`content` argument ignored), the cache is consulted under the file id,
download failures and a missing input yield a single `error` outcome. -/
def fastAnalyze (O : FastOrchOracles) (fileUrl : Option String) (content : Option PyContent)
    (mimeType : Option String) (useCache : Bool) : AnalyzeOut :=
  match urlTruthy fileUrl with
  | some u =>
    let fid := O.urlHash u
    match (if useCache then O.cache fid else none) with
    | some r => AnalyzeOut.mk r [] 0
    | none =>
      match O.download u with
      | .error e =>
        AnalyzeOut.mk
          [("error", ServiceResult.mk false .none 0 (some ("Failed to download file: " ++ e)))]
          [] 0
      | .ok c => fastAnalyzeBody O c mimeType useCache fid
  | none =>
    match content with
    | none => AnalyzeOut.mk [("error", invalidInputResult)] [] 0
    | some c =>
      let fid := O.contentHash c
      match (if useCache then O.cache fid else none) with
      | some r => AnalyzeOut.mk r [] 0
      | none => fastAnalyzeBody O c mimeType useCache fid

/-! ### Retrying model callers (`tools/llm_client.py`, `tools/fast_llm_client.py`)

The model capability is an oracle indexed by the attempt number; backoff
sleeps are collected in a list instead of being performed. -/

/-- The transient-error markers of `tools/llm_client.py`. -/
def transientMarkers : List String :=
  ["503", "unavailable", "rate limit", "rate_limit", "overloaded", "timeout"]

/-- `any(tok in msg for tok in (...))` on the lowercased message. -/
def isTransient (msg : String) : Bool :=
  transientMarkers.any (fun tok => containsStr (pyLower msg) tok)

/-- Worker for `llmGenerate`; `attempt` is 1-based and `fuel` bounds the
loop (the entry point passes `retries`, making the zero-fuel branch
unreachable for positive `retries`). -/
def llmGenLoop {α : Type} (call : Nat → Except String α) (retries : Nat) (backoff : ℚ) :
    Nat → Nat → Except String α × List ℚ
  | _, 0 => (.error "", [])
  | attempt, fuel + 1 =>
    match call attempt with
    | .ok x => (.ok x, [])
    | .error e =>
      if isTransient e && decide (attempt < retries) then
        let rest := llmGenLoop call retries backoff (attempt + 1) fuel
        (rest.1, qMul backoff (qOfNat (2 ^ (attempt - 1))) :: rest.2)
      else (.error e, [])

/-- `generate_content` of `tools/llm_client.py`: up to `retries` attempts,
sleeping `backoff * 2^(attempt-1)` after a recognized transient failure;
a final `Except.error` models the re-raised exception.  The second
component lists the backoff sleeps performed, in order. -/
def llmGenerate {α : Type} (call : Nat → Except String α) (retries : Nat) (backoff : ℚ) :
    Except String α × List ℚ :=
  llmGenLoop call retries backoff 1 retries

/-- A model response as seen by `fast_llm_client.generate_content`: the
duck-typed `text`/`parsed` pair. -/
structure Resp where
  text : String
  parsed : Option Json

/-- A cached `{"text": ..., "parsed": ...}` file body. -/
structure CacheEntry where
  text : String
  parsed : Option Json

/-- The value `fast_llm_client.generate_content` returns: a live response,
a `CachedResponse`, an `ErrorResponse`, or the dead-code `None`
fall-through of an exhausted loop. -/
inductive FastResult where
  | resp (r : Resp)
  | cached (r : Resp)
  | errorResp (msg : String)
  | none

/-- Whole-value cache write under one key. -/
def updateCache (cache : String → Option CacheEntry) (k : String) (e : CacheEntry) :
    String → Option CacheEntry :=
  fun k' => if k' = k then some e else cache k'

/-- Observable outcome of one `fast_llm_client.generate_content` call:
result, cache state after the call, the number of model calls performed,
and the backoff sleeps, in order. -/
structure FastGenOut where
  result : FastResult
  cache : String → Option CacheEntry
  modelCalls : Nat
  sleeps : List ℚ

/-- The retry loop of `fast_llm_client.generate_content` (`retry` is the
0-based loop index, `fuel` the remaining iterations): a successful call
saves `{text, parsed}` under the (truthy) key before returning; only a
message containing `"overloaded"` — with attempts remaining — is retried,
after a `(2^retry) * 0.5` sleep; any other failure immediately returns an
`ErrorResponse`. -/
def fastGenLoop (call : Nat → Except String Resp) (maxRetries : Nat) (key : Option String)
    (cache : String → Option CacheEntry) : Nat → Nat → FastGenOut
  | _, 0 => FastGenOut.mk .none cache 0 []
  | retry, fuel + 1 =>
    match call retry with
    | .ok r =>
      let cache' :=
        match key with
        | some k => updateCache cache k (CacheEntry.mk r.text r.parsed)
        | Option.none => cache
      FastGenOut.mk (.resp r) cache' 1 []
    | .error e =>
      if containsStr (pyLower e) "overloaded" && decide (retry < maxRetries - 1) then
        let out := fastGenLoop call maxRetries key cache (retry + 1) fuel
        FastGenOut.mk out.result out.cache (out.modelCalls + 1)
          (qMul (qOfNat (2 ^ retry)) (mkRat 1 2) :: out.sleeps)
      else FastGenOut.mk (.errorResp e) cache 1 []

/-- `len(str(contents))` for a list of plain strings (each rendered
quoted; escape expansion is not modelled). -/
def pyListStrLen (contents : List String) : Nat :=
  if contents.isEmpty then 2
  else 2 + (contents.map (fun s => s.length + 2)).sum + 2 * (contents.length - 1)

/-- `generate_content` of `tools/fast_llm_client.py`: with caching on, a
hit under the computed (or supplied) key returns a `CachedResponse`
without any model call; otherwise the retry loop runs, persisting a
success under the key.  `call` is the model oracle (actual model name,
0-based retry index); `keyFn` is the `_get_cache_key` md5 oracle; corrupt
or missing cache files are misses (`cache k = none`). -/
def fastGenerate (call : String → Nat → Except String Resp) (model : String)
    (contents : List String) (config : String) (useCache : Bool) (maxRetries : Nat)
    (cacheKeyArg : Option String) (keyFn : String → List String → String → String)
    (cache : String → Option CacheEntry) : FastGenOut :=
  let actualModel :=
    if model = "gemini-2.5-pro" && decide (pyListStrLen contents < 10000) then
      "gemini-2.5-flash"
    else model
  if useCache then
    let key := match cacheKeyArg with | some k => k | Option.none => keyFn model contents config
    match cache key with
    | some entry => FastGenOut.mk (.cached (Resp.mk entry.text entry.parsed)) cache 0 []
    | Option.none =>
      fastGenLoop (call actualModel) maxRetries (if key = "" then none else some key) cache 0
        maxRetries
  else fastGenLoop (call actualModel) maxRetries none cache 0 maxRetries

/-! ### Visuals response normalizer (`structuredOutput/visuals.py`) -/

/-- A duck-typed response as consumed by `_parse_response`
(`getattr(response, "parsed", None)` / `getattr(response, "text", "")`). -/
structure VisResponse where
  parsed : Option Json
  text : String

/-- Oracles for the text-parsing subroutines of `_parse_response`:
`json.loads`, and each regex-extract-then-parse step.  For a regex step,
`none` means the pattern did not match, `some none` that it matched but
the extracted substring failed to parse, `some (some j)` a successful
parse.  Theorems quantify over these, so they hold for the exact Python
`re`/`json` behaviours. -/
structure TextParsers where
  jsonLoads : String → Option Json
  extractArr : String → Option (Option Json)
  extractObj : String → Option (Option Json)

/-- The `data` selection chain of `_parse_response`: a truthy pre-parsed
value wins; otherwise `json.loads` on the text, else the `([...])` regex
extraction, else the `({...})` regex extraction, else no data. -/
def selectData (P : TextParsers) (resp : VisResponse) : Option Json :=
  let fromText :=
    match P.jsonLoads resp.text with
    | some j => some j
    | Option.none =>
      match P.extractArr resp.text with
      | some r => r
      | Option.none =>
        match P.extractObj resp.text with
        | some r => r
        | Option.none => none
  match resp.parsed with
  | some j => if j.truthy then some j else fromText
  | Option.none => fromText

/-- pydantic validation of the required `str` field `chart_type`: accepts
a string; `None`, lists and dicts raise a `ValidationError`.  (Numeric
acceptance differs between pydantic versions; no theorem depends on it.) -/
def coerceReqStr : Option Json → Except String String
  | some (.str s) => .ok s
  | _ => .error "ChartSpec validation error"

/-- pydantic validation of an `Optional[str]` field. -/
def coerceOptStr : Option Json → Except String (Option String)
  | Option.none => .ok none
  | some .null => .ok none
  | some (.str s) => .ok (some s)
  | some _ => .error "ChartSpec validation error"

/-- pydantic validation of the `Optional[Dict]` field `data`. -/
def coerceOptDict : Option Json → Except String (Option Json)
  | Option.none => .ok none
  | some .null => .ok none
  | some (.obj fields) => .ok (some (.obj fields))
  | some _ => .error "ChartSpec validation error"

/-- The forgiving per-entry build of the list branch
(`safe = {...}; ChartSpec(**safe)`); pydantic validation may raise. -/
def buildSafeChart (entry : List (String × Json)) : Except String ChartSpec := do
  let ct ← coerceReqStr
    (pyOr (entry.lookup "chart_type") (pyOr (entry.lookup "chart_name") (some (.str "chart"))))
  let purpose ← coerceOptStr (pyOr (entry.lookup "purpose") (entry.lookup "description"))
  let x ← coerceOptStr (pyOr (entry.lookup "x_axis") (entry.lookup "x"))
  let y ← coerceOptStr (pyOr (entry.lookup "y_axis") (entry.lookup "y"))
  let notes ← coerceOptStr (entry.lookup "notes")
  let dataV ← coerceOptDict (pyOr (entry.lookup "data") (entry.lookup "chart_data"))
  pure (ChartSpec.mk ct purpose x y notes dataV)

/-- The list branch of `_parse_response` (`data[:max_charts]`): dict
entries are built forgivingly, string entries become truncated
`text_summary` entries, all other entries are skipped. -/
def specsFromList (entries : List Json) (maxCharts : Nat) : Except String (List ChartSpec) :=
  (entries.take maxCharts).foldlM
    (fun acc entry =>
      match entry with
      | .obj fields => (buildSafeChart fields).map (fun c => acc ++ [c])
      | .str s =>
        .ok (acc ++ [ChartSpec.mk "text_summary" (some (pySlice s 200)) none none none none])
      | _ => .ok acc)
    []

/-- Per-entry build of the dict-wrapper branch: as the list branch, except
that `data` defaults to `{}` whenever the `data`/`chart_data` chain does
not produce a dict. -/
def buildSafeChartWrapped (entry : List (String × Json)) : Except String ChartSpec := do
  let ct ← coerceReqStr
    (pyOr (entry.lookup "chart_type") (pyOr (entry.lookup "chart_name") (some (.str "chart"))))
  let purpose ← coerceOptStr (pyOr (entry.lookup "purpose") (entry.lookup "description"))
  let x ← coerceOptStr (pyOr (entry.lookup "x_axis") (entry.lookup "x"))
  let y ← coerceOptStr (pyOr (entry.lookup "y_axis") (entry.lookup "y"))
  let notes ← coerceOptStr (entry.lookup "notes")
  let dataV : Option Json :=
    match pyOr (entry.lookup "data") (entry.lookup "chart_data") with
    | some (.obj fields) => some (.obj fields)
    | _ => some (.obj [])
  pure (ChartSpec.mk ct purpose x y notes dataV)

/-- Python `items[:n]` plus iteration inside the dict branch: lists slice,
strings slice to their characters, anything else raises a `TypeError`
(un-subscriptable value or unhashable slice). -/
def pySliceIter : Json → Nat → Except String (List Json)
  | .arr l, n => .ok (l.take n)
  | .str s, n => .ok ((s.toList.take n).map (fun c => .str (String.mk [c])))
  | _, _ => .error "TypeError: value is not subscriptable"

/-- The dict branch of `_parse_response`: a direct Chart.js spec (`type`
key plus a `data` or `options` key), else a known wrapper key
(`charts` / `recommended_charts`) unwrapped. -/
def specsFromDict (fields : List (String × Json)) (maxCharts : Nat) :
    Except String (List ChartSpec) :=
  if (fields.lookup "type").isSome &&
      ((fields.lookup "data").isSome || (fields.lookup "options").isSome) then do
    let ct ← coerceReqStr
      (match fields.lookup "type" with | some j => some j | Option.none => some (.str "chart"))
    let dataV ← coerceOptDict (some (.obj fields))
    pure [ChartSpec.mk ct (some "Chart.js visualization") none none none dataV]
  else do
    let items :=
      match pyOr (fields.lookup "charts")
          (pyOr (fields.lookup "recommended_charts") (some (.arr []))) with
      | some j => j
      | Option.none => .arr []
    let sliced ← pySliceIter items maxCharts
    sliced.foldlM
      (fun acc entry =>
        match entry with
        | .obj e => (buildSafeChartWrapped e).map (fun c => acc ++ [c])
        | _ => .ok acc)
      []

/-- The pre-fallback spec extraction of `_parse_response` (data that is
neither a list nor a dict yields no specs). -/
def extractSpecs (P : TextParsers) (resp : VisResponse) (maxCharts : Nat) :
    Except String (List ChartSpec) :=
  match selectData P resp with
  | some (.arr entries) => specsFromList entries maxCharts
  | some (.obj fields) => specsFromDict fields maxCharts
  | _ => .ok []

/-- `VisualsService._parse_response`: extraction, then the non-emptiness
fallback — a single `text_summary` entry carrying `raw[:200]`. -/
def parseResponse (P : TextParsers) (resp : VisResponse) (maxCharts : Nat) :
    Except String (List ChartSpec) := do
  let specs ← extractSpecs P resp maxCharts
  if specs.isEmpty then
    pure [ChartSpec.mk "text_summary" (some (pySlice resp.text 200)) none none none none]
  else pure specs

/-! ### Whole-request cache serialization (`fast_orchestrator.py`) -/

/-- JSON image of an optional string field. -/
def optStrJson : Option String → Json
  | Option.none => .null
  | some s => .str s

/-- pydantic `.dict()` of a `ChartSpec`. -/
def chartSpecToJson (c : ChartSpec) : Json :=
  .obj [("chart_type", .str c.chart_type), ("purpose", optStrJson c.purpose),
        ("x_axis", optStrJson c.x_axis), ("y_axis", optStrJson c.y_axis),
        ("notes", optStrJson c.notes),
        ("data", match c.data with | Option.none => .null | some j => j)]

/-- pydantic `.dict()` of a `SummaryModel`. -/
def summaryToJson (m : SummaryModel) : Json :=
  .obj [("title", optStrJson m.title), ("summary", .str m.summary),
        ("key_points", .arr (m.key_points.map .str)),
        ("recommended_charts", .arr (m.recommended_charts.map .str))]

/-- pydantic `.dict()` of a `RecommendationModel`. -/
def recsToJson (m : RecommendationModel) : Json :=
  .obj [("recommendations", .arr (m.recommendations.map .str))]

/-- pydantic `.dict()` conversion of the `Any`-typed `data` slot: nested
models — also inside lists — become plain dicts. -/
def dataToJson : Data → Json
  | .none => .null
  | .summary m => summaryToJson m
  | .recs m => recsToJson m
  | .charts cs => .arr (cs.map chartSpecToJson)
  | .raw j => j

/-- `v.dict()` of a `ServiceResult`, as written by `_save_to_cache`. -/
def serviceResultToJson (r : ServiceResult) : Json :=
  .obj [("success", .bool r.success), ("data", dataToJson r.data),
        ("execution_time", .num r.execution_time),
        ("error_message", optStrJson r.error_message)]

/-- The JSON document `_save_to_cache` writes for a whole result map. -/
def resultsToJson (m : List (String × ServiceResult)) : Json :=
  .obj (m.map (fun p => (p.1, serviceResultToJson p.2)))

/-- The `data` slot after `ServiceResult(**d)` on a loaded dict: a plain
JSON value (`None` for null) — pydantic does not reconstruct the nested
typed models behind an `Any` annotation. -/
def jsonToData : Json → Data
  | .null => .none
  | j => .raw j

/-- `ServiceResult(**d)` on one loaded JSON dict (defaults `success=True`,
`data=None`, `execution_time=0`, `error_message=None`); a shape pydantic
rejects yields `none`, which the bare `except` of `_get_cached_result`
turns into a cache miss. -/
def serviceResultFromJson : Json → Option ServiceResult
  | .obj fields => do
    let success ←
      match fields.lookup "success" with
      | Option.none => some true
      | some (.bool b) => some b
      | some _ => Option.none
    let etime ←
      match fields.lookup "execution_time" with
      | Option.none => some (0 : ℚ)
      | some (.num q) => some q
      | some _ => Option.none
    let emsg ←
      match fields.lookup "error_message" with
      | Option.none => some Option.none
      | some .null => some Option.none
      | some (.str s) => some (some s)
      | some _ => Option.none
    let d :=
      match fields.lookup "data" with
      | Option.none => Data.none
      | some j => jsonToData j
    some (ServiceResult.mk success d etime emsg)
  | _ => none

/-- `_get_cached_result`'s deserialization of a whole result map. -/
def resultsFromJson : Json → Option (List (String × ServiceResult))
  | .obj fields =>
    fields.mapM (fun p => (serviceResultFromJson p.2).map (fun r => (p.1, r)))
  | _ => none

/-! ## Claims -/

/-- C1: in the orchestrator's parallel path, a raised exception in exactly
one of the three analysis services is caught and recorded as a failed
outcome under that service's key only: the assembled map still carries all
three service keys, the other two outcomes are succeeded, and they are
identical to the outcomes of a run in which all three services succeed
(same payloads, same durations). -/
theorem claim1_parallel_failure_isolation
    (e : String) (ds dr dv : Data) (ts tr tv : ℚ) :
    ((parallelOutcomes (.error e) (.ok dr) (.ok dv) ts tr tv).lookup "summary" =
        some (ServiceResult.mk false .none ts (some ("Summary service error: " ++ e))) ∧
     (parallelOutcomes (.error e) (.ok dr) (.ok dv) ts tr tv).lookup "recommendations" =
        (parallelOutcomes (.ok ds) (.ok dr) (.ok dv) ts tr tv).lookup "recommendations" ∧
     (parallelOutcomes (.error e) (.ok dr) (.ok dv) ts tr tv).lookup "visuals" =
        (parallelOutcomes (.ok ds) (.ok dr) (.ok dv) ts tr tv).lookup "visuals") ∧
    ((parallelOutcomes (.ok ds) (.error e) (.ok dv) ts tr tv).lookup "recommendations" =
        some (ServiceResult.mk false .none tr (some ("Recommendation service error: " ++ e))) ∧
     (parallelOutcomes (.ok ds) (.error e) (.ok dv) ts tr tv).lookup "summary" =
        (parallelOutcomes (.ok ds) (.ok dr) (.ok dv) ts tr tv).lookup "summary" ∧
     (parallelOutcomes (.ok ds) (.error e) (.ok dv) ts tr tv).lookup "visuals" =
        (parallelOutcomes (.ok ds) (.ok dr) (.ok dv) ts tr tv).lookup "visuals") ∧
    ((parallelOutcomes (.ok ds) (.ok dr) (.error e) ts tr tv).lookup "visuals" =
        some (ServiceResult.mk false .none tv (some ("Visuals service error: " ++ e))) ∧
     (parallelOutcomes (.ok ds) (.ok dr) (.error e) ts tr tv).lookup "summary" =
        (parallelOutcomes (.ok ds) (.ok dr) (.ok dv) ts tr tv).lookup "summary" ∧
     (parallelOutcomes (.ok ds) (.ok dr) (.error e) ts tr tv).lookup "recommendations" =
        (parallelOutcomes (.ok ds) (.ok dr) (.ok dv) ts tr tv).lookup "recommendations") ∧
    (parallelOutcomes (.ok ds) (.ok dr) (.ok dv) ts tr tv).lookup "summary" =
      some (ServiceResult.mk true ds ts none) ∧
    (parallelOutcomes (.ok ds) (.ok dr) (.ok dv) ts tr tv).lookup "recommendations" =
      some (ServiceResult.mk true dr tr none) ∧
    (parallelOutcomes (.ok ds) (.ok dr) (.ok dv) ts tr tv).lookup "visuals" =
      some (ServiceResult.mk true dv tv none) := by
  exact ⟨⟨rfl, rfl, rfl⟩, ⟨rfl, rfl, rfl⟩, ⟨rfl, rfl, rfl⟩, rfl, rfl, rfl⟩

/-- The C3 counterexample run: the fast caller with a model that fails
with a transient-marked ("unavailable") error on the first attempt and
would succeed on the second. -/
def c3unavailableRun : FastGenOut :=
  fastGenerate
    (fun _ r => if r = 0 then .error "service unavailable" else .ok (Resp.mk "ok" none))
    "m" ["p"] "cfg" false 3 none (fun _ _ _ => "k") (fun _ => none)

/-- C3 counterexample: `"service unavailable"` carries a transient marker
of the claim's list, yet `fast_llm_client.generate_content` does not retry
it — one model call, no backoff sleep, an `ErrorResponse` — although the
second attempt would have succeeded.  The claimed retry-iff-marker rule is
false for this caller (it retries only on `"overloaded"`). -/
theorem claim3_counterexample :
    isTransient "service unavailable" = true ∧
    c3unavailableRun.result = .errorResp "service unavailable" ∧
    c3unavailableRun.sleeps = [] ∧
    c3unavailableRun.modelCalls = 1 := by
  exact ⟨rfl, rfl, rfl, rfl⟩

/-- C3 (amended): `tools/llm_client.py` retries exactly on the marker list
503/unavailable/rate limit/rate_limit/overloaded/timeout, up to 3 attempts
with doubling backoff (a failure marked transient twice with success on
the 3rd attempt yields the success value after exactly two sleeps, each at
least the prior one); `tools/fast_llm_client.py` retries only when the
message contains `"overloaded"`, with sleeps `0.5 * 2^retry`. -/
theorem claim3_retry_backoff (x : Data) (e1 e2 : String) (b : ℚ)
    (h1 : isTransient e1 = true) (h2 : isTransient e2 = true) (hb : 0 ≤ b) :
    (llmGenerate (fun n => if n = 1 then .error e1 else if n = 2 then .error e2 else .ok x) 3 b =
        (.ok x, [b, b * 2]) ∧ b ≤ b * 2) ∧
    (∀ e : String, llmGenerate (fun n => if n = 1 then .error e else .ok x) 3 b =
        if isTransient e then (.ok x, [b]) else (.error e, [])) ∧
    (∀ e : String,
      llmGenerate (fun _ => (.error e : Except String Data)) 3 b =
        if isTransient e then (.error e, [b, b * 2]) else (.error e, [])) ∧
    (∀ e : String,
      (fastGenerate (fun _ r => if r = 0 then .error e else .ok (Resp.mk "t" none))
          "m" ["p"] "cfg" false 3 none (fun _ _ _ => "k") (fun _ => none)).sleeps =
        if containsStr (pyLower e) "overloaded" then [(1 : ℚ) / 2] else []) ∧
    ((fastGenerate (fun _ r => if r ≤ 1 then .error "overloaded" else .ok (Resp.mk "t" none))
        "m" ["p"] "cfg" false 3 none (fun _ _ _ => "k") (fun _ => none)).result =
      .resp (Resp.mk "t" none) ∧
     (fastGenerate (fun _ r => if r ≤ 1 then .error "overloaded" else .ok (Resp.mk "t" none))
        "m" ["p"] "cfg" false 3 none (fun _ _ _ => "k") (fun _ => none)).sleeps =
      [(1 : ℚ) / 2, 1] ∧
     ((1 : ℚ) / 2 : ℚ) ≤ 1) := by
  have hle : b ≤ b * 2 := by nlinarith
  have hq1 : qMul b (qOfNat 1) = b := by rw [qMul_eq, qOfNat_eq]; norm_num
  have hq2 : qMul b (qOfNat 2) = b * 2 := by rw [qMul_eq, qOfNat_eq]; norm_num
  have hhalf : qMul (qOfNat 1) (mkRat 1 2) = (1 : ℚ) / 2 := by
    rw [qMul_eq, qOfNat_eq, mkRat_eq_q]; norm_num
  have hone : qMul (qOfNat 2) (mkRat 1 2) = (1 : ℚ) := by
    rw [qMul_eq, qOfNat_eq, mkRat_eq_q]; norm_num
  refine ⟨⟨?_, hle⟩, ?_, ?_, ?_, rfl, ?_, by norm_num⟩
  · simp [llmGenerate, llmGenLoop, h1, h2, hq1, hq2]
  · intro e
    by_cases he : isTransient e = true
    · simp [llmGenerate, llmGenLoop, he, hq1]
    · simp [llmGenerate, llmGenLoop, he]
  · intro e
    by_cases he : isTransient e = true
    · simp [llmGenerate, llmGenLoop, he, hq1, hq2]
    · simp [llmGenerate, llmGenLoop, he]
  · intro e
    by_cases he : containsStr (pyLower e) "overloaded" = true
    · simp [fastGenerate, fastGenLoop, he, hhalf]
    · simp [fastGenerate, fastGenLoop, he]
  · have hcomp :
        (fastGenerate (fun _ r => if r ≤ 1 then .error "overloaded" else .ok (Resp.mk "t" none))
            "m" ["p"] "cfg" false 3 none (fun _ _ _ => "k") (fun _ => none)).sleeps =
          [qMul (qOfNat 1) (mkRat 1 2), qMul (qOfNat 2) (mkRat 1 2)] := by decide
    rw [hcomp, hhalf, hone]

/-- Witness for `claim3_retry_backoff`: a model failing with `overloaded`
then `503` succeeds on the third attempt after sleeps `1` and `2`. -/
theorem claim3_retry_backoff_witness :
    llmGenerate
        (fun n => if n = 1 then .error "overloaded" else if n = 2 then .error "503"
          else .ok Data.none) 3 1 =
      (.ok Data.none, [(1 : ℚ), 1 * 2]) ∧ (1 : ℚ) ≤ 1 * 2 :=
  (claim3_retry_backoff Data.none "overloaded" "503" 1 (by decide) (by decide)
    (by norm_num)).1

/-- A successful fast-caller loop run (truthy key) saves the response's
`{text, parsed}` under the key. -/
theorem fastGenLoop_resp_cache (call : Nat → Except String Resp) (maxRetries : Nat)
    (k : String) (cache : String → Option CacheEntry) (retry fuel : Nat) (r : Resp)
    (h : (fastGenLoop call maxRetries (some k) cache retry fuel).result = .resp r) :
    (fastGenLoop call maxRetries (some k) cache retry fuel).cache =
      updateCache cache k (CacheEntry.mk r.text r.parsed) := by
  induction fuel generalizing retry with
  | zero => simp [fastGenLoop] at h
  | succ n ih =>
    rw [fastGenLoop] at h ⊢
    cases hc : call retry with
    | ok resp =>
      simp [hc] at h ⊢
      subst h
      rfl
    | error e =>
      simp only [hc] at h ⊢
      by_cases hov : (containsStr (pyLower e) "overloaded" && decide (retry < maxRetries - 1)) = true
      · simp only [hov, if_true] at h ⊢
        exact ih (retry + 1) h
      · simp only [hov, if_false] at h
        simp at h

/-- C4: with caching enabled, a hit under the computed key is returned
verbatim (its `{text, parsed}` content) with no model call and no cache
change; after a successful model call, the response's `{text, parsed}` is
persisted under the same key before returning, so a second invocation with
identical model, prompt contents and response-format configuration
performs no model call and returns the persisted content. -/
theorem claim4_cache_hit_and_write (call : String → Nat → Except String Resp) (model : String)
    (contents : List String) (config : String) (maxRetries : Nat)
    (keyFn : String → List String → String → String) (cache : String → Option CacheEntry) :
    (∀ entry, cache (keyFn model contents config) = some entry →
      fastGenerate call model contents config true maxRetries none keyFn cache =
        FastGenOut.mk (.cached (Resp.mk entry.text entry.parsed)) cache 0 []) ∧
    (∀ r out, fastGenerate call model contents config true maxRetries none keyFn cache = out →
      out.result = .resp r → keyFn model contents config ≠ "" →
      out.cache (keyFn model contents config) = some (CacheEntry.mk r.text r.parsed) ∧
      fastGenerate call model contents config true maxRetries none keyFn out.cache =
        FastGenOut.mk (.cached (Resp.mk r.text r.parsed)) out.cache 0 []) := by
  constructor
  · intro entry he
    rw [fastGenerate]
    simp only [if_true, he]
  · intro r out hout hres hk
    rw [fastGenerate] at hout
    simp only [if_true] at hout
    rw [if_neg hk] at hout
    cases hc : cache (keyFn model contents config) with
    | some entry =>
      rw [hc] at hout
      dsimp only at hout
      rw [← hout] at hres
      simp at hres
    | none =>
      rw [hc] at hout
      dsimp only at hout
      have hres2 :
          (fastGenLoop
            (call (if (decide (model = "gemini-2.5-pro") &&
                decide (pyListStrLen contents < 10000)) = true then "gemini-2.5-flash"
              else model))
            maxRetries (some (keyFn model contents config)) cache 0 maxRetries).result =
          .resp r := by
        rw [hout]; exact hres
      have hcache : out.cache =
          updateCache cache (keyFn model contents config) (CacheEntry.mk r.text r.parsed) := by
        rw [← hout]
        exact fastGenLoop_resp_cache _ maxRetries _ cache 0 maxRetries r hres2
      have hlook : out.cache (keyFn model contents config) =
          some (CacheEntry.mk r.text r.parsed) := by
        rw [hcache, updateCache]
        simp
      refine ⟨hlook, ?_⟩
      rw [fastGenerate]
      simp only [if_true, hlook]

/-- Witness for `claim4_cache_hit_and_write`: a first call persists the
response under the key and a second identical invocation is served from
the cache without any model call. -/
theorem claim4_witness :
    (fastGenerate (fun _ _ => .ok (Resp.mk "hi" none)) "m" ["p"] "cfg" true 3 none
        (fun _ _ _ => "key") (fun _ => none)).cache "key" = some (CacheEntry.mk "hi" none) ∧
    fastGenerate (fun _ _ => .ok (Resp.mk "hi" none)) "m" ["p"] "cfg" true 3 none
        (fun _ _ _ => "key")
        ((fastGenerate (fun _ _ => .ok (Resp.mk "hi" none)) "m" ["p"] "cfg" true 3 none
            (fun _ _ _ => "key") (fun _ => none)).cache) =
      FastGenOut.mk (.cached (Resp.mk "hi" none))
        ((fastGenerate (fun _ _ => .ok (Resp.mk "hi" none)) "m" ["p"] "cfg" true 3 none
            (fun _ _ _ => "key") (fun _ => none)).cache) 0 [] :=
  (claim4_cache_hit_and_write (fun _ _ => .ok (Resp.mk "hi" none)) "m" ["p"] "cfg" 3
      (fun _ _ _ => "key") (fun _ => none)).2 (Resp.mk "hi" none) _ rfl rfl (by decide)

/-- Text parsers that never succeed (no valid JSON, no regex match);
`_parse_response`'s behaviour on such input exercises the fallback path. -/
def noParsers : TextParsers :=
  TextParsers.mk (fun _ => none) (fun _ => none) (fun _ => none)

/-- A model response whose pre-parsed value is a chart list with a
dict-valued `purpose` — valid JSON, but a value pydantic's `Optional[str]`
rejects. -/
def c2badResp : VisResponse :=
  VisResponse.mk (some (.arr [.obj [("purpose", .obj [("a", .num 1)])]])) "x"

/-- C2 counterexample: on a parsed chart entry whose `purpose` is a dict,
`ChartSpec(**safe)` raises a pydantic `ValidationError` inside
`_parse_response`, so no list at all is returned — refuting the claim
that every input yields a list of length ≥ 1. -/
theorem claim2_counterexample :
    parseResponse noParsers c2badResp 5 = .error "ChartSpec validation error" := rfl

/-- C2 (amended): whenever `_parse_response` returns a list (pydantic
validation of an extracted entry can instead raise, as in the
counterexample), that list is non-empty; and whenever extraction yields no
entries, the result is (without raising) exactly one degenerate
`text_summary` entry whose purpose is the at-most-200-character prefix of
the raw response text. -/
theorem claim2_normalizer_nonempty (P : TextParsers) (resp : VisResponse) (maxCharts : Nat) :
    (∀ l, parseResponse P resp maxCharts = .ok l → 1 ≤ l.length) ∧
    (extractSpecs P resp maxCharts = .ok [] →
      parseResponse P resp maxCharts =
        .ok [ChartSpec.mk "text_summary" (some (pySlice resp.text 200)) none none none none] ∧
      (pySlice resp.text 200).length ≤ 200) := by
  constructor
  · intro l hl
    rw [parseResponse] at hl
    cases hex : extractSpecs P resp maxCharts with
    | error e =>
      rw [hex] at hl
      simp [Bind.bind, Except.bind] at hl
    | ok specs =>
      rw [hex] at hl
      simp only [Bind.bind, Except.bind] at hl
      by_cases hempty : specs.isEmpty = true
      · rw [if_pos hempty] at hl
        simp only [pure, Except.pure, Except.ok.injEq] at hl
        subst hl
        simp
      · rw [if_neg hempty] at hl
        simp only [pure, Except.pure, Except.ok.injEq] at hl
        subst hl
        cases specs with
        | nil => simp at hempty
        | cons a as => simp
  · intro hex
    constructor
    · rw [parseResponse, hex]
      rfl
    · rw [pySlice]
      calc (String.mk (resp.text.toList.take 200)).length
          = (resp.text.toList.take 200).length := rfl
        _ ≤ 200 := by
            rw [List.length_take]
            exact min_le_left _ _

/-- Witness for `claim2_normalizer_nonempty`: a plain-text response with
no extractable JSON yields exactly the one degenerate entry. -/
theorem claim2_normalizer_nonempty_witness :
    parseResponse noParsers (VisResponse.mk none "hello") 5 =
      .ok [ChartSpec.mk "text_summary" (some (pySlice "hello" 200)) none none none none] ∧
    (pySlice "hello" 200).length ≤ 200 :=
  (claim2_normalizer_nonempty noParsers (VisResponse.mk none "hello") 5).2 rfl

/-- Concrete oracles for the C5 runs: downloads succeed with plain text,
the cache is empty, all three services succeed. -/
def c5oracles : FastOrchOracles :=
  FastOrchOracles.mk (fun _ => .ok (.str "hello world")) (fun _ => none) (fun _ => "h")
    (fun _ => "h") (fun _ _ => .ok (.raw .null)) (fun _ _ => .ok (.raw .null))
    (fun _ _ => .ok (.raw .null)) 0 0 0

/-- C5 counterexample: with BOTH a URL and content supplied the claim
demands a single `error` outcome and no analysis; instead `analyze`
downloads from the URL, runs all three services, and returns a map with no
`error` key. -/
theorem claim5_counterexample :
    (fastAnalyze c5oracles (some "http://x") (some (.str "ignored")) none false).result.lookup
        "error" = none ∧
    (fastAnalyze c5oracles (some "http://x") (some (.str "ignored")) none false).serviceRuns = 3 ∧
    ((fastAnalyze c5oracles (some "http://x") (some (.str "ignored")) none
        false).result.lookup "summary").isSome = true :=
  ⟨rfl, rfl, rfl⟩

/-- Neither the fast path nor the parallel path produces an `error` key. -/
theorem fastAnalyzeBody_no_error_key (O : FastOrchOracles) (c : PyContent)
    (mt : Option String) (uc : Bool) (fid : String) :
    (fastAnalyzeBody O c mt uc fid).result.lookup "error" = none := by
  rw [fastAnalyzeBody]
  dsimp only
  split
  · rfl
  · rfl

/-- C5 (amended): provided downloads succeed and cached maps carry no
`error` key, `analyze` returns the single invalid-input `error` outcome —
with no cache write and no service run — exactly when neither a truthy URL
nor content is supplied; and when a truthy URL is supplied the `content`
argument is ignored entirely (the URL wins), rather than being rejected. -/
theorem claim5_input_validation (O : FastOrchOracles) (fileUrl : Option String)
    (content : Option PyContent) (mimeType : Option String) (useCache : Bool)
    (hcache : ∀ k r, O.cache k = some r → r.lookup "error" = none)
    (hdl : ∀ u e, O.download u ≠ .error e) :
    ((fastAnalyze O fileUrl content mimeType useCache).result.lookup "error" =
        some invalidInputResult ↔ urlTruthy fileUrl = none ∧ content = none) ∧
    (urlTruthy fileUrl = none ∧ content = none →
      fastAnalyze O fileUrl content mimeType useCache =
        AnalyzeOut.mk [("error", invalidInputResult)] [] 0) ∧
    (∀ u c c', urlTruthy fileUrl = some u →
      fastAnalyze O fileUrl (some c) mimeType useCache =
        fastAnalyze O fileUrl (some c') mimeType useCache) := by
  refine ⟨?_, ?_, ?_⟩
  · constructor
    · intro herr
      rw [fastAnalyze.eq_def] at herr
      cases hu : urlTruthy fileUrl with
      | some u =>
        rw [hu] at herr
        dsimp only at herr
        cases hcc : (if useCache then O.cache (O.urlHash u) else none) with
        | some rmap =>
          rw [hcc] at herr
          dsimp only at herr
          cases useCache with
          | true =>
            simp only [if_true] at hcc
            rw [hcache _ _ hcc] at herr
            exact absurd herr (by simp)
          | false => simp at hcc
        | none =>
          rw [hcc] at herr
          dsimp only at herr
          cases hd : O.download u with
          | error e => exact absurd hd (hdl u e)
          | ok c =>
            rw [hd] at herr
            dsimp only at herr
            rw [fastAnalyzeBody_no_error_key] at herr
            exact absurd herr (by simp)
      | none =>
        rw [hu] at herr
        dsimp only at herr
        cases hc : content with
        | none => exact ⟨rfl, rfl⟩
        | some c =>
          rw [hc] at herr
          dsimp only at herr
          cases hcc : (if useCache then O.cache (O.contentHash c) else none) with
          | some rmap =>
            rw [hcc] at herr
            dsimp only at herr
            cases useCache with
            | true =>
              simp only [if_true] at hcc
              rw [hcache _ _ hcc] at herr
              exact absurd herr (by simp)
            | false => simp at hcc
          | none =>
            rw [hcc] at herr
            dsimp only at herr
            rw [fastAnalyzeBody_no_error_key] at herr
            exact absurd herr (by simp)
    · intro h
      rw [fastAnalyze.eq_def, h.1, h.2]
      rfl
  · intro h
    rw [fastAnalyze.eq_def, h.1, h.2]
  · intro u c c' hu
    rw [fastAnalyze.eq_def, fastAnalyze.eq_def, hu]

/-- Witness for `claim5_input_validation`: with neither URL nor content,
`analyze` returns exactly the single invalid-input outcome, writes nothing
to the cache, and runs no service. -/
theorem claim5_witness :
    fastAnalyze c5oracles none none none false =
      AnalyzeOut.mk [("error", invalidInputResult)] [] 0 :=
  (claim5_input_validation c5oracles none none none false
      (fun k r h => by simp [c5oracles] at h)
      (fun u e h => by simp [c5oracles] at h)).2.1 ⟨rfl, rfl⟩

/-- Oracles under which no model call and no download can succeed: any
LLM or network dependence of a run would surface as a failed outcome. -/
def fastOnlyOracles : FastOrchOracles :=
  FastOrchOracles.mk (fun _ => .error "network disabled") (fun _ => none) (fun _ => "h")
    (fun _ => "h") (fun _ _ => .error "llm disabled") (fun _ _ => .error "llm disabled")
    (fun _ _ => .error "llm disabled") 0 0 0

/-- The C6 end-to-end input. -/
def c6text : String := "Date,Supplier,Amount\n2024-01-01,Acme,100\n2024-01-02,Acme,200"

/-- The C6 run: the input as bytes, no MIME hint, cache off. -/
def c6run : AnalyzeOut :=
  fastAnalyze fastOnlyOracles none (some (.bytes (asciiBytes c6text))) none false

/-- The local profile of the C6 input (`std_dev` stores the population
variance `2500 = 50²`). -/
def c6profile : CsvProfile :=
  CsvProfile.mk ["Date", "Supplier", "Amount"] 2
    [("Amount", NumStats.mk 150 150 100 200 2500)]
    [("Date", CatStats.mk 2 [("2024-01-01", 1), ("2024-01-02", 1)]),
     ("Supplier", CatStats.mk 1 [("Acme", 2)])]
    [["2024-01-01", "Acme", "100"], ["2024-01-02", "Acme", "200"]]

/-- The chart list the fast path synthesizes for the C6 input: the first
categorical column is `Date` (dates do not parse as floats), so the bar
and pie charts reference `Date`, not `Supplier`. -/
def c6charts : List ChartSpec :=
  [ChartSpec.mk "bar" (some "Bar chart showing Amount by Date") (some "Date") (some "Amount")
     none (some (.obj [("labels", .str "Date"), ("values", .str "Amount")])),
   ChartSpec.mk "pie" (some "Pie chart showing distribution of Date") none none
     (some "Visual representation of Date distribution") none,
   ChartSpec.mk "line" (some "Line chart showing Amount over time") (some "Date") (some "Amount")
     (some "Trend analysis of Amount by Date") none]

/-- Whether a chart spec references a column name: as one of its axes, or
as a substring of its purpose or notes. -/
def chartMentions (c : ChartSpec) (col : String) : Bool :=
  c.x_axis == some col || c.y_axis == some col ||
  (match c.purpose with | some p => containsStr p col | Option.none => false) ||
  (match c.notes with | some n => containsStr n col | Option.none => false)

/-- C6 counterexample: the fast-path visuals for the claimed input are the
bar/pie/line list referencing `Date`, and NO bar or pie chart references
the `Supplier` column anywhere, refuting the claim's "bar or pie chart
referencing the Supplier column". -/
theorem claim6_counterexample :
    c6run.result.lookup "visuals" =
      some (ServiceResult.mk true (.charts c6charts) 0 none) ∧
    c6charts.all
        (fun c => !((c.chart_type == "bar" || c.chart_type == "pie") &&
          chartMentions c "Supplier")) = true :=
  ⟨rfl, by decide⟩

/-- C6 (amended): the claimed CSV bytes with no MIME hint are classified
`text/csv` and the fast path runs: the local profile has row count 2 and
the summary outcome is synthesized from it (`title` states 2 rows); the
recommendations outcome has exactly 5 entries (so ≥ 5); the visuals
outcome contains a line chart with x-axis `Date` — but the bar and pie
charts reference `Date`, the first categorical column, instead of the
claimed `Supplier`. -/
theorem claim6_fast_path_end_to_end :
    detectMime (.bytes (asciiBytes c6text)) none = "text/csv" ∧
    isCsvContent (.bytes (asciiBytes c6text)) = true ∧
    analyzeCsvLocally c6text = .ok c6profile ∧
    c6profile.row_count = 2 ∧
    c6run.result.lookup "summary" =
      some (ServiceResult.mk true (.summary (mkLocalSummary c6profile)) 0 none) ∧
    (mkLocalSummary c6profile).title = some "CSV Data Analysis (2 rows)" ∧
    c6run.result.lookup "recommendations" =
      some (ServiceResult.mk true (.recs (mkLocalRecs c6profile)) 0 none) ∧
    5 ≤ (mkLocalRecs c6profile).recommendations.length ∧
    c6run.result.lookup "visuals" =
      some (ServiceResult.mk true (.charts (mkLocalVisuals c6profile)) 0 none) ∧
    mkLocalVisuals c6profile = c6charts ∧
    c6charts.any (fun c => c.chart_type == "line" && c.x_axis == some "Date") = true ∧
    c6charts.any (fun c => c.chart_type == "bar" && chartMentions c "Date") = true ∧
    c6charts.any (fun c => c.chart_type == "pie" && chartMentions c "Date") = true :=
  ⟨rfl, by decide, by decide, by decide, rfl, by decide, rfl, by decide, rfl, rfl,
   by decide, by decide, by decide⟩

/-- The four categories of the claim's classifier. -/
inductive Category where
  | csv
  | pdf
  | text
  | binary
  deriving Repr, DecidableEq

/-- Minimum of a list of naturals (`min(...)`; 0 for `[]`, never evaluated
there). -/
def natMinList : List Nat → Nat
  | [] => 0
  | x :: xs => xs.foldl Nat.min x

/-- Maximum of a list of naturals. -/
def natMaxList : List Nat → Nat
  | [] => 0
  | x :: xs => xs.foldl Nat.max x

/-- The no-hint classifier as the CLAIM states it — a reference definition
written from the claim's words, for comparison with the code: CSV requires
a decodable 1000-byte sample with ≥2 lines and a consistent comma count
over the first 5 lines (max−min ≤ 1, at least 2 commas); then the PDF
magic; then the ZIP magic (binary); then UTF-8 decodability (text);
otherwise binary. -/
def claimSniff (b : List Nat) : Category :=
  let csvLike :=
    match utf8Decode (b.take 1000) with
    | some sample =>
      let lines := pySplitlines sample
      let counts := (lines.take 5).map (fun l => countChar l ',')
      decide (2 ≤ lines.length) && decide (natMaxList counts - natMinList counts ≤ 1) &&
        decide (2 ≤ natMinList counts)
    | none => false
  if csvLike then .csv
  else if pdfMagic.isPrefixOf b then .pdf
  else if zipMagic.isPrefixOf b then .binary
  else if (utf8Decode b).isSome then .text
  else .binary

/-- The category a returned MIME string denotes. -/
def mimeToCategory : String → Option Category
  | "text/csv" => some .csv
  | "application/pdf" => some .pdf
  | "application/zip" => some .binary
  | "application/octet-stream" => some .binary
  | "text/plain" => some .text
  | _ => none

/-- `FileProcessor.process_file`'s MIME decision (`orchestrator.py`) when
no hint is given (only the mime string; the content conversion is
dropped): CSV requires ≥2 lines with every first-5-line comma count
positive and max−min ≤ 1; the final `except` arm
(`application/octet-stream`) is unreachable because
`decode('utf-8', errors='ignore')` never raises. -/
def processFileSniff (b : List Nat) : String :=
  let csvLike :=
    match utf8Decode (b.take 1000) with
    | some sample =>
      let lines := pySplitlines sample
      if 1 < lines.length then
        let counts := (lines.take 5).map (fun l => countChar l ',')
        counts.all (fun c => 0 < c) && decide (natMaxList counts - natMinList counts ≤ 1)
      else false
    | none => false
  if csvLike then "text/csv"
  else if pdfMagic.isPrefixOf b then "application/pdf"
  else if zipMagic.isPrefixOf b then "application/zip"
  else "text/plain"

/-- A two-line sample with exactly one comma per line. -/
def c7csvish : List Nat := asciiBytes "a,b\nc,d"

/-- Bytes that are not valid UTF-8 and carry no magic. -/
def c7binary : List Nat := [0xFF, 0xFE, 0x00]

/-- C7 counterexample: on `"a,b\nc,d"` the claim's rule says `text` (only
one comma per line, fewer than the required two) but both classifiers say
`csv`; on undecodable magic-free bytes the claim says `binary` but both
classifiers say `text` — the claimed comma threshold and the final
`binary` rule do not match the code. -/
theorem claim7_counterexample :
    (claimSniff c7csvish = .text ∧
     detectMime (.bytes c7csvish) none = "text/csv" ∧
     processFileSniff c7csvish = "text/csv" ∧
     mimeToCategory (detectMime (.bytes c7csvish) none) ≠ some (claimSniff c7csvish)) ∧
    (claimSniff c7binary = .binary ∧
     detectMime (.bytes c7binary) none = "text/plain" ∧
     processFileSniff c7binary = "text/plain" ∧
     mimeToCategory (detectMime (.bytes c7binary) none) ≠ some (claimSniff c7binary)) := by
  exact ⟨⟨rfl, rfl, rfl, by decide⟩, ⟨rfl, rfl, rfl, by decide⟩⟩

/-- C7 (amended): a non-empty MIME hint is returned verbatim; sniffing in
`_detect_mime_type` classifies CSV exactly when the first 1000 bytes
decode, the sample has ≥2 lines, and the FIRST line contains at least ONE
comma (no consistency check, no two-comma threshold); otherwise the PDF
and ZIP magics are tried; everything else — including undecodable bytes —
is `text/plain`, and `application/octet-stream` (binary) is never
returned.  A decode failure never raises: it falls through to the magic
checks. -/
theorem claim7_classification (c : PyContent) (m : String) (hm : m ≠ "") (b : List Nat) :
    detectMime c (some m) = m ∧
    detectMime (.bytes b) none ≠ "application/octet-stream" ∧
    processFileSniff b ≠ "application/octet-stream" ∧
    (detectMime (.bytes b) none = "text/csv" ↔
      ∃ sample, utf8Decode (b.take 1000) = some sample ∧
        1 < (pySplitlines sample).length ∧
        hasChar ((pySplitlines sample).headD "") ',' = true) ∧
    (utf8Decode (b.take 1000) = none →
      detectMime (.bytes b) none =
        (if pdfMagic.isPrefixOf b then "application/pdf"
         else if zipMagic.isPrefixOf b then "application/zip"
         else "text/plain")) := by
  refine ⟨?_, ?_, ?_, ?_, ?_⟩
  · simp [detectMime, hm]
  · simp only [detectMime, detectSniff]
    cases utf8Decode (b.take 1000) <;> dsimp only <;> split <;> try split
    all_goals try split
    all_goals decide
  · rw [processFileSniff]
    dsimp only
    split
    · decide
    · split
      · decide
      · split <;> decide
  · simp only [detectMime, detectSniff]
    cases hdec : utf8Decode (b.take 1000) with
    | none =>
      dsimp only
      rw [if_neg (by simp)]
      constructor
      · intro h
        exfalso
        revert h
        split
        · decide
        · split
          · decide
          · decide
      · rintro ⟨sample, hs, -⟩
        simp at hs
    | some sample =>
      dsimp only
      by_cases hcsv :
          (decide (1 < (pySplitlines sample).length) &&
            hasChar ((pySplitlines sample).headD "") ',') = true
      · rw [if_pos hcsv]
        rw [Bool.and_eq_true, decide_eq_true_eq] at hcsv
        exact ⟨fun _ => ⟨sample, rfl, hcsv.1, hcsv.2⟩, fun _ => rfl⟩
      · rw [if_neg hcsv]
        constructor
        · intro h
          exfalso
          revert h
          split
          · decide
          · split
            · decide
            · decide
        · rintro ⟨sample', hs, h1, h2⟩
          cases hs
          refine absurd ?_ hcsv
          rw [Bool.and_eq_true, decide_eq_true_eq]
          exact ⟨h1, h2⟩
  · intro hdec
    simp [detectMime, detectSniff, hdec]

/-- Witness for `claim7_classification` at a non-empty hint and concrete
bytes. -/
theorem claim7_classification_witness :
    detectMime (.str "x") (some "text/csv") = "text/csv" ∧
    detectMime (.bytes c7binary) none ≠ "application/octet-stream" :=
  ⟨(claim7_classification (.str "x") "text/csv" (by decide) c7binary).1,
   (claim7_classification (.str "x") "text/csv" (by decide) c7binary).2.1⟩

/-- One outcome's round trip through `v.dict()` / `ServiceResult(**d)`:
the plain fields survive; the payload comes back as its JSON image. -/
theorem serviceResult_round (r : ServiceResult) :
    serviceResultFromJson (serviceResultToJson r) =
      some (ServiceResult.mk r.success (jsonToData (dataToJson r.data)) r.execution_time
        r.error_message) := by
  cases r with
  | mk success data etime emsg => cases emsg <;> rfl

/-- A result map with a typed summary payload. -/
def c9result : List (String × ServiceResult) :=
  [("summary", ServiceResult.mk true (.summary (SummaryModel.mk none "s" [] [])) 0 none)]

/-- What the cache round trip actually returns for `c9result`: the typed
summary payload comes back as a plain JSON dict. -/
def c9loaded : List (String × ServiceResult) :=
  [("summary", ServiceResult.mk true
      (.raw (.obj [("title", .null), ("summary", .str "s"), ("key_points", .arr []),
        ("recommended_charts", .arr [])])) 0 none)]

/-- C9 counterexample: `deserialize(serialize(R)) ≠ R` for a map whose
payload is a typed model — deserialization leaves the payload as a plain
dict instead of reconstructing the `SummaryModel`. -/
theorem claim9_counterexample :
    resultsFromJson (resultsToJson c9result) = some c9loaded ∧ c9loaded ≠ c9result := by
  refine ⟨rfl, ?_⟩
  intro h
  simp [c9loaded, c9result] at h

/-- C9 (amended): the cache round trip preserves the key list and every
outcome's `success` / `execution_time` / `error_message` fields, and maps
each payload to its plain-JSON image — typed payloads are NOT
reconstructed; the round trip is the identity exactly on outcomes whose
payload is already `None` or a plain non-null JSON value. -/
theorem claim9_cache_round_trip (m : List (String × ServiceResult)) :
    resultsFromJson (resultsToJson m) =
      some (m.map (fun p => (p.1,
        ServiceResult.mk p.2.success (jsonToData (dataToJson p.2.data)) p.2.execution_time
          p.2.error_message))) ∧
    (∀ r : ServiceResult,
      (r.data = Data.none ∨ ∃ j, j ≠ Json.null ∧ r.data = Data.raw j) →
      serviceResultFromJson (serviceResultToJson r) = some r) := by
  constructor
  · induction m with
    | nil => rfl
    | cons p rest ih =>
      simp only [resultsToJson, resultsFromJson, List.map_cons] at ih ⊢
      rw [List.mapM_cons]
      rw [serviceResult_round]
      simp only [Option.map_eq_map, Option.bind_eq_bind, Option.some_bind]
      rw [ih]
      rfl
  · intro r hr
    rw [serviceResult_round]
    rcases hr with hnone | ⟨j, hj, hraw⟩
    · cases r with
      | mk success data etime emsg =>
        simp only at hnone
        subst hnone
        rfl
    · cases r with
      | mk success data etime emsg =>
        simp only at hraw
        subst hraw
        cases j with
        | null => exact absurd rfl hj
        | bool b => rfl
        | num q => rfl
        | str s => rfl
        | arr l => rfl
        | obj f => rfl

/-- Witness for `claim9_cache_round_trip`: an outcome whose payload is a
plain JSON string round-trips identically. -/
theorem claim9_witness :
    serviceResultFromJson (serviceResultToJson
        (ServiceResult.mk true (Data.raw (.str "x")) 0 none)) =
      some (ServiceResult.mk true (Data.raw (.str "x")) 0 none) :=
  (claim9_cache_round_trip []).2 (ServiceResult.mk true (Data.raw (.str "x")) 0 none)
    (Or.inr ⟨.str "x", by simp, rfl⟩)

/-! ### Association-list and fold lemmas for the analyzer proofs -/

theorem lookup_none_of_keys {β : Type} (l : List (String × β)) (k : String)
    (h : ∀ p ∈ l, p.1 ≠ k) : l.lookup k = none := by
  induction l with
  | nil => rfl
  | cons a l ih =>
    obtain ⟨k', v⟩ := a
    have hk : ¬(k == k') = true := by
      simp only [beq_iff_eq]
      intro he
      exact h (k', v) (List.mem_cons_self _ _) (by simp [he])
    rw [List.lookup, Bool.eq_false_iff.mpr hk]
    exact ih (fun p hp => h p (List.mem_cons_of_mem _ hp))

theorem lookup_append_none {β : Type} (l1 l2 : List (String × β)) (k : String)
    (h1 : l1.lookup k = none) : (l1 ++ l2).lookup k = l2.lookup k := by
  induction l1 with
  | nil => rfl
  | cons a l1 ih =>
    obtain ⟨k', v⟩ := a
    rw [List.lookup] at h1
    show List.lookup k ((k', v) :: (l1 ++ l2)) = _
    rw [List.lookup]
    cases hk : (k == k') with
    | true => rw [hk] at h1; simp at h1
    | false =>
      rw [hk] at h1
      dsimp only
      exact ih h1

theorem dictInsert_of_lookup_none {β : Type} (d : List (String × β)) (k : String) (v : β)
    (h : d.lookup k = none) : dictInsert d k v = d ++ [(k, v)] := by
  rw [dictInsert, h]
  rfl

/-- `dictFold` over fresh keys is append-only: the closed form. -/
theorem dictFold_general {β : Type} (f : Nat × String → Option β) (l : List (Nat × String))
    (acc : List (String × β)) (hdisj : ∀ p ∈ l, acc.lookup p.2 = none)
    (hnd : (l.map Prod.snd).Nodup) :
    l.foldl (fun acc p => match f p with | some v => dictInsert acc p.2 v | none => acc) acc =
      acc ++ l.filterMap (fun p => (f p).map (fun v => (p.2, v))) := by
  induction l generalizing acc with
  | nil => simp
  | cons q qs ih =>
    rw [List.map_cons, List.nodup_cons] at hnd
    rw [List.foldl_cons, List.filterMap_cons]
    cases hfq : f q with
    | none =>
      simp only [hfq, Option.map_none']
      exact ih acc (fun p hp => hdisj p (List.mem_cons_of_mem _ hp)) hnd.2
    | some v =>
      simp only [hfq, Option.map_some']
      rw [dictInsert_of_lookup_none _ _ _ (hdisj q (List.mem_cons_self _ _))]
      rw [ih (acc ++ [(q.2, v)]) ?_ hnd.2]
      · rw [List.append_assoc]
        rfl
      · intro p hp
        rw [lookup_append_none _ _ _ (hdisj p (List.mem_cons_of_mem _ hp))]
        have hne : q.2 ≠ p.2 := by
          intro he
          exact hnd.1 (he ▸ List.mem_map_of_mem Prod.snd hp)
        refine lookup_none_of_keys [(q.2, v)] p.2 ?_
        intro x hx
        rcases List.mem_singleton.mp hx with rfl
        exact hne

/-- The closed form of `dictFold` when the keys are distinct. -/
theorem dictFold_eq_filterMap {β : Type} (f : Nat × String → Option β)
    (l : List (Nat × String)) (hnd : (l.map Prod.snd).Nodup) :
    dictFold f l = l.filterMap (fun p => (f p).map (fun v => (p.2, v))) := by
  rw [dictFold, dictFold_general f l [] (fun p _ => rfl) hnd]
  rfl

/-- Keys produced by the `dictFold` closed form come from the input. -/
theorem mem_keys_filterMap {β : Type} (f : Nat × String → Option β)
    (l : List (Nat × String)) (pair : String × β)
    (h : pair ∈ l.filterMap (fun p => (f p).map (fun v => (p.2, v)))) :
    pair.1 ∈ l.map Prod.snd := by
  rcases List.mem_filterMap.mp h with ⟨p, hp, hfp⟩
  cases hv : f p with
  | none => rw [hv] at hfp; exact absurd hfp (by simp)
  | some v =>
    rw [hv] at hfp
    simp only [Option.map_some', Option.some.injEq] at hfp
    subst hfp
    exact List.mem_map_of_mem Prod.snd hp

/-- `dictFold` lookup: with distinct keys, looking up the `i`-th key gives
exactly what the loop computed for column `i`. -/
theorem dictFold_lookup {β : Type} (f : Nat × String → Option β) (l : List (Nat × String))
    (hnd : (l.map Prod.snd).Nodup) (i : Nat) (h : String) (hmem : (i, h) ∈ l) :
    (dictFold f l).lookup h = f (i, h) := by
  rw [dictFold_eq_filterMap f l hnd]
  induction l with
  | nil => exact absurd hmem (List.not_mem_nil _)
  | cons q qs ih =>
    rw [List.map_cons, List.nodup_cons] at hnd
    rw [List.filterMap_cons]
    rcases List.mem_cons.mp hmem with heq | hqs
    · subst heq
      cases hv : f (i, h) with
      | none =>
        simp only [hv, Option.map_none']
        refine lookup_none_of_keys _ _ ?_
        intro p hp hph
        exact hnd.1 (hph ▸ mem_keys_filterMap f qs p hp)
      | some v =>
        simp only [hv, Option.map_some']
        rw [List.lookup, beq_self_eq_true]
    · have hne : q.2 ≠ h := by
        intro he
        exact hnd.1 (he ▸ List.mem_map_of_mem Prod.snd hqs)
      cases hv : f q with
      | none =>
        simp only [hv, Option.map_none']
        exact ih hnd.2 hqs
      | some v =>
        simp only [hv, Option.map_some']
        rw [List.lookup, Bool.eq_false_iff.mpr (show ¬(h == q.2) = true by
          simp only [beq_iff_eq]; exact fun he => hne he.symm)]
        exact ih hnd.2 hqs

/-! ### Column-extraction and statistics lemmas -/

/-- The float comprehension succeeds exactly when every non-blank value of
the column parses, and then returns those parses in order. -/
theorem colFloats_eq (dataRows : List (List String)) (i : Nat) :
    colFloats dataRows i =
      if ((colRaw dataRows i).filter nonBlank).all (fun s => (pyFloat s).isSome)
      then some (((colRaw dataRows i).filter nonBlank).filterMap pyFloat)
      else none := by
  induction dataRows with
  | nil => rfl
  | cons row rs ih =>
    by_cases hlen : i < row.length
    · have hcolraw : colRaw (row :: rs) i = row.get ⟨i, hlen⟩ :: colRaw rs i := by
        rw [colRaw, List.filterMap_cons, dif_pos hlen]
        rfl
      rw [colFloats, dif_pos hlen, hcolraw, List.filter_cons]
      by_cases hnb : nonBlank (row.get ⟨i, hlen⟩) = true
      · rw [if_pos hnb, if_pos hnb, List.all_cons]
        cases hpf : pyFloat (row.get ⟨i, hlen⟩) with
        | none => simp [hpf]
        | some q =>
          rw [ih]
          by_cases hall : ((colRaw rs i).filter nonBlank).all (fun s => (pyFloat s).isSome) = true
          · have hpf' : pyFloat row[i] = some q := hpf
            simp [hall, hpf, hpf', List.filterMap_cons]
          · simp [hall, hpf]
      · rw [if_neg hnb, if_neg hnb]
        exact ih
    · have hcolraw : colRaw (row :: rs) i = colRaw rs i := by
        rw [colRaw, List.filterMap_cons, dif_neg hlen]
        rfl
      rw [colFloats, dif_neg hlen, hcolraw]
      exact ih

theorem listSum_eq (l : List ℚ) : listSum l = l.sum := by
  have haux : ∀ a : ℚ, l.foldl qAdd a = a + l.sum := by
    induction l with
    | nil => intro a; simp
    | cons x xs ih =>
      intro a
      rw [List.foldl_cons, qAdd_eq, ih, List.sum_cons]
      ring
  rw [listSum, haux 0, zero_add]

theorem meanOf_eq (l : List ℚ) : meanOf l = l.sum / (l.length : ℚ) := by
  rw [meanOf, qDiv_eq, listSum_eq, qOfNat_eq]

theorem pvarianceOf_eq (l : List ℚ) :
    pvarianceOf l = (l.map (fun x => (x - l.sum / l.length) ^ 2)).sum / (l.length : ℚ) := by
  rw [pvarianceOf, qDiv_eq, listSum_eq, qOfNat_eq]
  congr 1
  refine congrArg List.sum (List.map_congr_left ?_)
  intro x _
  rw [qMul_eq, qSub_eq, meanOf_eq]
  ring

theorem foldl_qMin_le (xs : List ℚ) (x : ℚ) :
    xs.foldl qMin x ≤ x ∧ ∀ y ∈ xs, xs.foldl qMin x ≤ y := by
  induction xs generalizing x with
  | nil => exact ⟨le_refl x, by simp⟩
  | cons z zs ih =>
    rw [List.foldl_cons, qMin_eq]
    refine ⟨le_trans (ih (min x z)).1 (min_le_left _ _), ?_⟩
    intro y hy
    rcases List.mem_cons.mp hy with rfl | hzs
    · exact le_trans (ih (min x y)).1 (min_le_right _ _)
    · exact (ih (min x z)).2 y hzs

theorem foldl_qMin_mem (xs : List ℚ) (x : ℚ) :
    xs.foldl qMin x = x ∨ xs.foldl qMin x ∈ xs := by
  induction xs generalizing x with
  | nil => exact Or.inl rfl
  | cons z zs ih =>
    rw [List.foldl_cons]
    rcases ih (qMin x z) with h | h
    · rw [h, qMin_eq, min_def]
      split
      · exact Or.inl rfl
      · exact Or.inr (List.mem_cons_self _ _)
    · exact Or.inr (List.mem_cons_of_mem _ h)

/-- `min(values)` is a member and a lower bound. -/
theorem qMinList_spec (l : List ℚ) (hl : l ≠ []) :
    qMinList l ∈ l ∧ ∀ x ∈ l, qMinList l ≤ x := by
  cases l with
  | nil => exact absurd rfl hl
  | cons x xs =>
    rw [qMinList]
    constructor
    · rcases foldl_qMin_mem xs x with h | h
      · rw [h]; exact List.mem_cons_self _ _
      · exact List.mem_cons_of_mem _ h
    · intro y hy
      rcases List.mem_cons.mp hy with rfl | hxs
      · exact (foldl_qMin_le xs y).1
      · exact (foldl_qMin_le xs x).2 y hxs

theorem foldl_qMax_le (xs : List ℚ) (x : ℚ) :
    x ≤ xs.foldl qMax x ∧ ∀ y ∈ xs, y ≤ xs.foldl qMax x := by
  induction xs generalizing x with
  | nil => exact ⟨le_refl x, by simp⟩
  | cons z zs ih =>
    rw [List.foldl_cons, qMax_eq]
    refine ⟨le_trans (le_max_left _ _) (ih (max x z)).1, ?_⟩
    intro y hy
    rcases List.mem_cons.mp hy with rfl | hzs
    · exact le_trans (le_max_right _ _) (ih (max x y)).1
    · exact (ih (max x z)).2 y hzs

theorem foldl_qMax_mem (xs : List ℚ) (x : ℚ) :
    xs.foldl qMax x = x ∨ xs.foldl qMax x ∈ xs := by
  induction xs generalizing x with
  | nil => exact Or.inl rfl
  | cons z zs ih =>
    rw [List.foldl_cons]
    rcases ih (qMax x z) with h | h
    · rw [h, qMax_eq, max_def]
      split
      · exact Or.inr (List.mem_cons_self _ _)
      · exact Or.inl rfl
    · exact Or.inr (List.mem_cons_of_mem _ h)

/-- `max(values)` is a member and an upper bound. -/
theorem qMaxList_spec (l : List ℚ) (hl : l ≠ []) :
    qMaxList l ∈ l ∧ ∀ x ∈ l, x ≤ qMaxList l := by
  cases l with
  | nil => exact absurd rfl hl
  | cons x xs =>
    rw [qMaxList]
    constructor
    · rcases foldl_qMax_mem xs x with h | h
      · rw [h]; exact List.mem_cons_self _ _
      · exact List.mem_cons_of_mem _ h
    · intro y hy
      rcases List.mem_cons.mp hy with rfl | hxs
      · exact (foldl_qMax_le xs y).1
      · exact (foldl_qMax_le xs x).2 y hxs

theorem insertAsc_eq_orderedInsert (x : ℚ) (l : List ℚ) :
    insertAsc x l = List.orderedInsert (· ≤ ·) x l := by
  induction l with
  | nil => rfl
  | cons y ys ih =>
    rw [insertAsc, List.orderedInsert]
    by_cases h : x ≤ y
    · rw [if_pos ((qLe_iff x y).mpr h), if_pos h]
    · rw [if_neg (fun hh => h ((qLe_iff x y).mp hh)), if_neg h, ih]

theorem sortAsc_eq_insertionSort (l : List ℚ) :
    sortAsc l = List.insertionSort (· ≤ ·) l := by
  induction l with
  | nil => rfl
  | cons x xs ih =>
    rw [sortAsc] at ih ⊢
    rw [List.foldr_cons, ih, insertAsc_eq_orderedInsert, List.insertionSort]

/-- `statistics.median`'s sort really sorts. -/
theorem sortAsc_sorted (l : List ℚ) : (sortAsc l).Sorted (· ≤ ·) := by
  rw [sortAsc_eq_insertionSort]
  exact List.sorted_insertionSort _ _

/-- `statistics.median`'s sort is a permutation of the input. -/
theorem sortAsc_perm (l : List ℚ) : List.Perm (sortAsc l) l := by
  rw [sortAsc_eq_insertionSort]
  exact List.perm_insertionSort _ _

/-! ### The `value_counts` dict and its stable descending sort -/

theorem firstSeen_mem_general (l : List String) :
    ∀ (acc : List String) (x : String),
      x ∈ l.foldl (fun acc v => if v ∈ acc then acc else acc ++ [v]) acc ↔ x ∈ acc ∨ x ∈ l := by
  induction l with
  | nil => intro acc x; simp
  | cons v vs ih =>
    intro acc x
    rw [List.foldl_cons]
    by_cases hv : v ∈ acc
    · rw [if_pos hv, ih]
      constructor
      · rintro (h | h)
        · exact Or.inl h
        · exact Or.inr (List.mem_cons_of_mem _ h)
      · rintro (h | h)
        · exact Or.inl h
        · rcases List.mem_cons.mp h with rfl | h
          · exact Or.inl hv
          · exact Or.inr h
    · rw [if_neg hv, ih]
      simp only [List.mem_append, List.mem_singleton, List.mem_cons]
      tauto

/-- The keys of `value_counts` are exactly the values of the column. -/
theorem mem_firstSeen (l : List String) (x : String) : x ∈ firstSeen l ↔ x ∈ l := by
  rw [firstSeen, firstSeen_mem_general]
  simp

theorem firstSeen_nodup_general (l : List String) :
    ∀ acc : List String, acc.Nodup →
      (l.foldl (fun acc v => if v ∈ acc then acc else acc ++ [v]) acc).Nodup := by
  induction l with
  | nil => intro acc h; exact h
  | cons v vs ih =>
    intro acc h
    rw [List.foldl_cons]
    by_cases hv : v ∈ acc
    · rw [if_pos hv]
      exact ih acc h
    · rw [if_neg hv]
      refine ih _ ?_
      simp [List.nodup_append, h, hv]

/-- Python dict keys are unique. -/
theorem firstSeen_nodup (l : List String) : (firstSeen l).Nodup := by
  rw [firstSeen]
  exact firstSeen_nodup_general l [] List.nodup_nil

theorem firstSeen_append_mem (l : List String) (v : String) (hv : v ∈ firstSeen l) :
    firstSeen (l ++ [v]) = firstSeen l := by
  rw [firstSeen, List.foldl_append, List.foldl_cons, List.foldl_nil]
  rw [firstSeen] at hv
  rw [if_pos hv, firstSeen]

theorem firstSeen_append_not_mem (l : List String) (v : String) (hv : v ∉ firstSeen l) :
    firstSeen (l ++ [v]) = firstSeen l ++ [v] := by
  rw [firstSeen, List.foldl_append, List.foldl_cons, List.foldl_nil]
  rw [firstSeen] at hv
  rw [if_neg hv, firstSeen]

/-- `value_counts` keys sit in first-occurrence order. -/
theorem firstSeen_pairwise_indexOf (l : List String) :
    (firstSeen l).Pairwise (fun a b => l.indexOf a < l.indexOf b) := by
  induction l using List.reverseRecOn with
  | nil => exact List.Pairwise.nil
  | append_singleton l v ih =>
    by_cases hv : v ∈ firstSeen l
    · rw [firstSeen_append_mem l v hv]
      refine List.Pairwise.imp_of_mem ?_ ih
      intro a b ha hb hab
      have ha' : a ∈ l := (mem_firstSeen l a).mp ha
      have hb' : b ∈ l := (mem_firstSeen l b).mp hb
      rw [List.indexOf_append_of_mem ha', List.indexOf_append_of_mem hb']
      exact hab
    · rw [firstSeen_append_not_mem l v hv]
      rw [List.pairwise_append]
      refine ⟨?_, List.pairwise_singleton _ _, ?_⟩
      · refine List.Pairwise.imp_of_mem ?_ ih
        intro a b ha hb hab
        have ha' : a ∈ l := (mem_firstSeen l a).mp ha
        have hb' : b ∈ l := (mem_firstSeen l b).mp hb
        rw [List.indexOf_append_of_mem ha', List.indexOf_append_of_mem hb']
        exact hab
      · intro a ha b hb
        rw [List.mem_singleton] at hb
        subst hb
        have ha' : a ∈ l := (mem_firstSeen l a).mp ha
        have hv' : b ∉ l := fun h => hv ((mem_firstSeen l b).mpr h)
        rw [List.indexOf_append_of_mem ha', List.indexOf_append_of_not_mem hv']
        calc l.indexOf a < l.length := List.indexOf_lt_length.mpr ha'
          _ ≤ l.length + List.indexOf b [b] := Nat.le_add_right _ _

theorem lookup_map_self {β : Type} (g : String → β) (l : List String) (v : String) :
    (l.map (fun u => (u, g u))).lookup v = if v ∈ l then some (g v) else none := by
  induction l with
  | nil => rfl
  | cons a as ih =>
    rw [List.map_cons, List.lookup]
    by_cases hva : v = a
    · subst hva
      simp
    · have hb : (v == a) = false := by simp [hva]
      rw [hb]
      show (as.map (fun u => (u, g u))).lookup v = _
      rw [ih]
      simp [hva]

/-- One `value_counts` update step keeps the counts-of-prefix shape. -/
theorem countsStep_spec (pre : List String) (v : String) :
    countsStep ((firstSeen pre).map (fun u => (u, pre.count u))) v =
      (firstSeen (pre ++ [v])).map (fun u => (u, (pre ++ [v]).count u)) := by
  by_cases hv : v ∈ firstSeen pre
  · have hlook : ((firstSeen pre).map (fun u => (u, pre.count u))).lookup v
        = some (pre.count v) := by
      rw [lookup_map_self, if_pos hv]
    rw [countsStep, hlook]
    show dictInsert ((firstSeen pre).map (fun u => (u, pre.count u))) v (pre.count v + 1) = _
    rw [firstSeen_append_mem pre v hv, dictInsert, hlook]
    rw [if_pos (by rfl)]
    rw [List.map_map]
    refine List.map_congr_left ?_
    intro u hu
    by_cases huv : u = v
    · subst huv
      simp [List.count_append]
    · simp only [Function.comp_apply]
      rw [if_neg huv]
      have : (pre ++ [v]).count u = pre.count u := by
        rw [List.count_append]
        simp [List.count_singleton', Ne.symm huv]
      rw [this]
  · have hlook : ((firstSeen pre).map (fun u => (u, pre.count u))).lookup v = none := by
      rw [lookup_map_self, if_neg hv]
    rw [countsStep, hlook]
    show (firstSeen pre).map (fun u => (u, pre.count u)) ++ [(v, 1)] = _
    rw [firstSeen_append_not_mem pre v hv, List.map_append]
    have hvp : v ∉ pre := fun h => hv ((mem_firstSeen pre v).mpr h)
    congr 1
    · refine List.map_congr_left ?_
      intro u hu
      have huv : u ≠ v := by
        intro he
        exact hv (he ▸ hu)
      rw [List.count_append]
      simp [List.count_singleton', Ne.symm huv]
    · rw [List.map_singleton, List.count_append]
      have h0 : pre.count v = 0 := List.count_eq_zero_of_not_mem hvp
      simp [h0, List.count_singleton']

/-- The `value_counts` dict is the first-seen keys paired with their
occurrence counts. -/
theorem countsOf_eq (l : List String) :
    countsOf l = (firstSeen l).map (fun u => (u, l.count u)) := by
  induction l using List.reverseRecOn with
  | nil => rfl
  | append_singleton l v ih =>
    rw [countsOf, List.foldl_append, List.foldl_cons, List.foldl_nil]
    rw [countsOf] at ih
    rw [ih, countsStep_spec]

theorem insertDescBy_perm (x : String × Nat) (l : List (String × Nat)) :
    List.Perm (insertDescBy x l) (x :: l) := by
  induction l with
  | nil => exact List.Perm.refl _
  | cons y ys ih =>
    rw [insertDescBy]
    by_cases h : y.2 < x.2
    · rw [if_pos h]
    · rw [if_neg h]
      exact (ih.cons y).trans (List.Perm.swap x y ys)

theorem insertDescBy_pairwise (T : String × Nat → String × Nat → Prop)
    (x : String × Nat) (l : List (String × Nat))
    (hl : l.Pairwise (fun a b => b.2 < a.2 ∨ (a.2 = b.2 ∧ T a b)))
    (hx : ∀ a ∈ l, T a x) :
    (insertDescBy x l).Pairwise (fun a b => b.2 < a.2 ∨ (a.2 = b.2 ∧ T a b)) := by
  induction l with
  | nil => exact List.pairwise_singleton _ _
  | cons y ys ih =>
    rw [insertDescBy]
    rcases List.pairwise_cons.mp hl with ⟨hy, hys⟩
    by_cases h : y.2 < x.2
    · rw [if_pos h]
      refine List.pairwise_cons.mpr ⟨?_, hl⟩
      intro b hb
      rcases List.mem_cons.mp hb with rfl | hb
      · exact Or.inl h
      · rcases hy b hb with hlt | ⟨heq, _⟩
        · exact Or.inl (lt_trans hlt h)
        · exact Or.inl (heq ▸ h)
    · rw [if_neg h]
      refine List.pairwise_cons.mpr
        ⟨?_, ih hys (fun a ha => hx a (List.mem_cons_of_mem _ ha))⟩
      intro b hb
      have hb' : b ∈ x :: ys := (insertDescBy_perm x ys).mem_iff.mp hb
      rcases List.mem_cons.mp hb' with rfl | hb'
      · rcases Nat.lt_trichotomy b.2 y.2 with hlt | heq | hgt
        · exact Or.inl hlt
        · exact Or.inr ⟨heq.symm, hx y (List.mem_cons_self _ _)⟩
        · exact absurd hgt h
      · exact hy b hb'

theorem foldl_insertDescBy_pairwise (T : String × Nat → String × Nat → Prop)
    (l : List (String × Nat)) :
    ∀ acc : List (String × Nat),
      acc.Pairwise (fun a b => b.2 < a.2 ∨ (a.2 = b.2 ∧ T a b)) →
      (∀ a ∈ acc, ∀ x ∈ l, T a x) → l.Pairwise T →
      (l.foldl (fun acc x => insertDescBy x acc) acc).Pairwise
        (fun a b => b.2 < a.2 ∨ (a.2 = b.2 ∧ T a b)) := by
  induction l with
  | nil => intro acc hacc _ _; exact hacc
  | cons x xs ih =>
    intro acc hacc hcross hl
    rw [List.foldl_cons]
    rcases List.pairwise_cons.mp hl with ⟨hx, hxs⟩
    refine ih _ ?_ ?_ hxs
    · exact insertDescBy_pairwise T x acc hacc
        (fun a ha => hcross a ha x (List.mem_cons_self _ _))
    · intro a ha y hy
      have ha' : a ∈ x :: acc := (insertDescBy_perm x acc).mem_iff.mp ha
      rcases List.mem_cons.mp ha' with rfl | ha'
      · exact hx y hy
      · exact hcross a ha' y (List.mem_cons_of_mem _ hy)

/-- `sorted(..., key=count, reverse=True)` is descending in count and, the
sort being stable, preserves any order the input already had on
equal-count entries. -/
theorem sortDesc_pairwise (T : String × Nat → String × Nat → Prop)
    (l : List (String × Nat)) (hl : l.Pairwise T) :
    (sortDesc l).Pairwise (fun a b => b.2 < a.2 ∨ (a.2 = b.2 ∧ T a b)) := by
  rw [sortDesc]
  exact foldl_insertDescBy_pairwise T l [] List.Pairwise.nil (by simp) hl

theorem foldl_insertDescBy_perm (l : List (String × Nat)) :
    ∀ acc : List (String × Nat),
      List.Perm (l.foldl (fun acc x => insertDescBy x acc) acc) (l ++ acc) := by
  induction l with
  | nil => intro acc; simp
  | cons x xs ih =>
    intro acc
    rw [List.foldl_cons]
    refine (ih (insertDescBy x acc)).trans
      ((List.Perm.append_left xs (insertDescBy_perm x acc)).trans ?_)
    rw [List.cons_append]
    exact List.perm_middle

/-- The sort permutes the `value_counts` items. -/
theorem sortDesc_perm (l : List (String × Nat)) : List.Perm (sortDesc l) l := by
  rw [sortDesc]
  simpa using foldl_insertDescBy_perm l []

theorem lookup_isSome_iff {β : Type} (l : List (String × β)) (k : String) :
    (l.lookup k).isSome = true ↔ k ∈ l.map Prod.fst := by
  induction l with
  | nil => simp [List.lookup]
  | cons a l ih =>
    obtain ⟨k', v⟩ := a
    rw [List.lookup]
    by_cases hk : k = k'
    · subst hk
      simp
    · have hb : (k == k') = false := by simp [hk]
      rw [hb]
      show (l.lookup k).isSome = true ↔ _
      rw [ih]
      simp [hk]

/-! ### The statistics dicts meet their specification -/

/-- `statistics.median` of the source equals the textbook middle /
averaged-middle of a sorted permutation. -/
theorem medianOf_spec (l : List ℚ) :
    ∃ s, List.Perm s l ∧ s.Sorted (· ≤ ·) ∧
      medianOf l = (if s.length % 2 = 1 then s.getD (s.length / 2) 0
        else (s.getD (s.length / 2 - 1) 0 + s.getD (s.length / 2) 0) / 2) := by
  refine ⟨sortAsc l, sortAsc_perm l, sortAsc_sorted l, ?_⟩
  rw [medianOf]
  by_cases hpar : (sortAsc l).length % 2 = 1
  · rw [if_pos hpar, if_pos hpar]
  · rw [if_neg hpar, if_neg hpar, qDiv_eq, qAdd_eq, qOfNat_eq]
    norm_num

theorem filterMap_length_of_isSome {α β : Type} (f : α → Option β) (l : List α)
    (h : ∀ v ∈ l, (f v).isSome = true) : (l.filterMap f).length = l.length := by
  induction l with
  | nil => rfl
  | cons x xs ih =>
    cases hx : f x with
    | none => exact absurd (h x (List.mem_cons_self _ _)) (by rw [hx]; simp)
    | some b =>
      rw [List.filterMap_cons, hx]
      show (b :: xs.filterMap f).length = _
      rw [List.length_cons, List.length_cons,
        ih (fun v hv => h v (List.mem_cons_of_mem _ hv))]

/-- `len(value_counts)` is the number of distinct column values. -/
theorem firstSeen_length (l : List String) : (firstSeen l).length = l.toFinset.card := by
  rw [← List.toFinset_card_of_nodup (firstSeen_nodup l)]
  congr 1
  ext x
  simp [List.mem_toFinset, mem_firstSeen]

/-- The numeric-column stats dict satisfies the statistics spec. -/
theorem mkNumStats_spec (vs : List ℚ) (hne : vs ≠ []) :
    specNumStats vs (mkNumStats vs) := by
  unfold specNumStats
  refine ⟨?_, ?_, ?_, ?_, ?_, ?_, ?_⟩
  · show meanOf vs = _
    exact meanOf_eq vs
  · show ∃ s, _ ∧ _ ∧ medianOf vs = _
    exact medianOf_spec vs
  · show qMinList vs ∈ vs
    exact (qMinList_spec vs hne).1
  · show ∀ x ∈ vs, qMinList vs ≤ x
    exact (qMinList_spec vs hne).2
  · show qMaxList vs ∈ vs
    exact (qMaxList_spec vs hne).1
  · show ∀ x ∈ vs, x ≤ qMaxList vs
    exact (qMaxList_spec vs hne).2
  · show (if 1 < vs.length then pvarianceOf vs else 0) = _
    by_cases h1 : 1 < vs.length
    · rw [if_pos h1, if_neg (by omega), pvarianceOf_eq]
    · rw [if_neg h1, if_pos (by omega)]

/-- The categorical-column dict satisfies the distinct-count/top-5 spec. -/
theorem mostCommon_spec (raw : List String) :
    specMostCommon raw
      (CatStats.mk (countsOf raw).length ((sortDesc (countsOf raw)).take 5)) := by
  have hcounts := countsOf_eq raw
  have hperm : List.Perm (sortDesc (countsOf raw)) (countsOf raw) := sortDesc_perm _
  have hkeys : (countsOf raw).map Prod.fst = firstSeen raw := by
    rw [hcounts, List.map_map]
    exact List.map_id _
  have hpw : (sortDesc (countsOf raw)).Pairwise
      (fun a b => b.2 < a.2 ∨ (a.2 = b.2 ∧ raw.indexOf a.1 < raw.indexOf b.1)) := by
    refine sortDesc_pairwise _ _ ?_
    rw [hcounts]
    exact List.pairwise_map.mpr (firstSeen_pairwise_indexOf raw)
  have hmemc : ∀ p ∈ countsOf raw, p.1 ∈ raw ∧ p.2 = raw.count p.1 := by
    intro p hp
    rw [hcounts] at hp
    rcases List.mem_map.mp hp with ⟨u, hu, rfl⟩
    exact ⟨(mem_firstSeen raw u).mp hu, rfl⟩
  unfold specMostCommon
  refine ⟨?_, ?_, ?_, ?_, ?_, ?_⟩
  · show (countsOf raw).length = _
    rw [hcounts, List.length_map, firstSeen_length]
  · show ((sortDesc (countsOf raw)).take 5).length = _
    rw [List.length_take, hperm.length_eq, hcounts, List.length_map, firstSeen_length]
  · intro p hp
    exact hmemc p (hperm.mem_iff.mp ((List.take_sublist 5 _).subset hp))
  · show (((sortDesc (countsOf raw)).take 5).map Prod.fst).Nodup
    rw [List.map_take]
    refine List.Nodup.sublist (List.take_sublist 5 _) ?_
    refine (List.Perm.nodup_iff (List.Perm.map Prod.fst hperm)).mpr ?_
    rw [hkeys]
    exact firstSeen_nodup raw
  · exact List.Pairwise.sublist (List.take_sublist 5 _) hpw
  · intro v hv hnk p hp
    have hvc : (v, raw.count v) ∈ sortDesc (countsOf raw) := by
      refine hperm.mem_iff.mpr ?_
      rw [hcounts]
      exact List.mem_map.mpr ⟨v, (mem_firstSeen raw v).mpr hv, rfl⟩
    rw [← List.take_append_drop 5 (sortDesc (countsOf raw))] at hvc
    rcases List.mem_append.mp hvc with hin | hin
    · exact absurd (List.mem_map_of_mem Prod.fst hin) hnk
    · have hsplit := hpw
      rw [← List.take_append_drop 5 (sortDesc (countsOf raw))] at hsplit
      rcases List.pairwise_append.mp hsplit with ⟨_, _, hcross⟩
      rcases hcross p hp _ hin with hlt | ⟨heq, _⟩
      · exact le_of_lt hlt
      · exact le_of_eq heq.symm

/-- Splitting a list by two complementary partial functions permutes it. -/
theorem filterMap_partition_perm {α β γ : Type} (f : α → Option β) (g : α → Option γ)
    (key : α → String) (l : List α)
    (h : ∀ a ∈ l, ((f a).isSome = true ↔ g a = none)) :
    List.Perm (l.filterMap (fun a => (f a).map (fun _ => key a)) ++
      l.filterMap (fun a => (g a).map (fun _ => key a))) (l.map key) := by
  induction l with
  | nil => simp
  | cons a as ih =>
    have ha := h a (List.mem_cons_self _ _)
    have ih' := ih (fun x hx => h x (List.mem_cons_of_mem _ hx))
    rw [List.filterMap_cons, List.filterMap_cons, List.map_cons]
    cases hf : f a with
    | some b =>
      have hg : g a = none := ha.mp (by rw [hf]; rfl)
      simp only [hf, hg, Option.map_some', Option.map_none', List.cons_append]
      exact ih'.cons _
    | none =>
      cases hg : g a with
      | none =>
        have : (f a).isSome = true := ha.mpr hg
        rw [hf] at this
        exact absurd this (by simp)
      | some c =>
        simp only [hf, hg, Option.map_some', Option.map_none']
        exact List.perm_middle.trans (ih'.cons _)

/-- C8: a column is numeric exactly when every non-blank value parses as a
float and at least one exists; a numeric column's stats are the exact
mean, median, min, max and population deviation of the parsed values (`0`
for a single value); every other column is categorical with the
distinct-value count and the top-5 most frequent raw values, descending,
ties broken by first-seen order. -/
theorem claim8_column_classification
    (headers : List String) (dataRows : List (List String))
    (hnd : headers.Nodup) (i : Nat) (hi : i < headers.length) :
    (((numericColumnsOf headers dataRows).lookup headers[i]).isSome = true ↔
      ((colRaw dataRows i).filter nonBlank ≠ [] ∧
        ∀ v ∈ (colRaw dataRows i).filter nonBlank, (pyFloat v).isSome = true)) ∧
    (∀ ns, (numericColumnsOf headers dataRows).lookup headers[i] = some ns →
      specNumStats (colVals dataRows i) ns) ∧
    (∀ cs, (categoricalColumnsOf headers dataRows
        (numericColumnsOf headers dataRows)).lookup headers[i] = some cs →
      specMostCommon (colRaw dataRows i) cs) ∧
    (((numericColumnsOf headers dataRows).lookup headers[i]).isSome = true ↔
      (categoricalColumnsOf headers dataRows
        (numericColumnsOf headers dataRows)).lookup headers[i] = none) := by
  have hmem : (i, headers[i]) ∈ headers.enum := by
    rw [List.mk_mem_enum_iff_getElem?]
    exact List.getElem?_eq_getElem hi
  have hndsnd : (headers.enum.map Prod.snd).Nodup := by
    rw [List.enum_map_snd]
    exact hnd
  have hnum : (numericColumnsOf headers dataRows).lookup headers[i]
      = numColValue dataRows (i, headers[i]) := by
    rw [numericColumnsOf]
    exact dictFold_lookup _ _ hndsnd i _ hmem
  have hcat : (categoricalColumnsOf headers dataRows
        (numericColumnsOf headers dataRows)).lookup headers[i]
      = catColValue dataRows (numericColumnsOf headers dataRows) (i, headers[i]) := by
    rw [categoricalColumnsOf]
    exact dictFold_lookup _ _ hndsnd i _ hmem
  have hval0 : numColValue dataRows (i, headers[i]) =
      (match colFloats dataRows i with
       | some vs => if vs.isEmpty then none else some (mkNumStats vs)
       | none => none) := rfl
  have hcatval : catColValue dataRows (numericColumnsOf headers dataRows) (i, headers[i]) =
      if ((numericColumnsOf headers dataRows).lookup headers[i]).isSome = true then none
      else some (CatStats.mk (countsOf (colRaw dataRows i)).length
        ((sortDesc (countsOf (colRaw dataRows i))).take 5)) := rfl
  by_cases hall : (((colRaw dataRows i).filter nonBlank).all
      fun s => (pyFloat s).isSome) = true
  · have hvs : colFloats dataRows i = some (colVals dataRows i) := by
      rw [colFloats_eq, if_pos hall]
      rfl
    have hval : numColValue dataRows (i, headers[i]) =
        if (colVals dataRows i).isEmpty then none
        else some (mkNumStats (colVals dataRows i)) := by
      rw [hval0, hvs]
    have hlen : (colVals dataRows i).length
        = ((colRaw dataRows i).filter nonBlank).length := by
      rw [colVals]
      exact filterMap_length_of_isSome _ _ (List.all_eq_true.mp hall)
    by_cases hemp : (colVals dataRows i).isEmpty = true
    · have hnb : (colRaw dataRows i).filter nonBlank = [] := by
        rw [← List.length_eq_zero, ← hlen, List.length_eq_zero]
        exact List.isEmpty_iff.mp hemp
      have hnone : (numericColumnsOf headers dataRows).lookup headers[i] = none := by
        rw [hnum, hval, if_pos hemp]
      refine ⟨?_, ?_, ?_, ?_⟩
      · rw [hnone]
        simp only [Option.isSome_none, Bool.false_eq_true, false_iff]
        intro hcontra
        exact hcontra.1 hnb
      · intro ns hns
        rw [hnone] at hns
        exact absurd hns (by simp)
      · intro cs hcs
        rw [hcat, hcatval, hnone] at hcs
        simp only [Option.isSome_none, Bool.false_eq_true, if_false] at hcs
        obtain rfl := Option.some.inj hcs.symm
        exact mostCommon_spec _
      · rw [hnone, hcat, hcatval, hnone]
        simp
    · have hsome : (numericColumnsOf headers dataRows).lookup headers[i]
          = some (mkNumStats (colVals dataRows i)) := by
        rw [hnum, hval, if_neg hemp]
      have hne : colVals dataRows i ≠ [] := fun h => hemp (by rw [h]; rfl)
      refine ⟨?_, ?_, ?_, ?_⟩
      · rw [hsome]
        simp only [Option.isSome_some, true_iff]
        refine ⟨?_, List.all_eq_true.mp hall⟩
        intro h0
        exact hne (by rw [colVals, h0]; rfl)
      · intro ns hns
        rw [hsome] at hns
        obtain rfl := Option.some.inj hns.symm
        exact mkNumStats_spec _ hne
      · intro cs hcs
        rw [hcat, hcatval, hsome] at hcs
        simp at hcs
      · rw [hsome, hcat, hcatval, hsome]
        simp
  · have hvs : colFloats dataRows i = none := by
      rw [colFloats_eq, if_neg hall]
    have hnone : (numericColumnsOf headers dataRows).lookup headers[i] = none := by
      rw [hnum, hval0, hvs]
    refine ⟨?_, ?_, ?_, ?_⟩
    · rw [hnone]
      simp only [Option.isSome_none, Bool.false_eq_true, false_iff]
      intro hcontra
      rw [List.all_eq_true] at hall
      exact hall hcontra.2
    · intro ns hns
      rw [hnone] at hns
      exact absurd hns (by simp)
    · intro cs hcs
      rw [hcat, hcatval, hnone] at hcs
      simp only [Option.isSome_none, Bool.false_eq_true, if_false] at hcs
      obtain rfl := Option.some.inj hcs.symm
      exact mostCommon_spec _
    · rw [hnone, hcat, hcatval, hnone]
      simp

theorem claim8_witness :
    ((numericColumnsOf ["a", "b"] [["1", "x"], ["2", "x"]]).lookup "a").isSome = true :=
  (claim8_column_classification ["a", "b"] [["1", "x"], ["2", "x"]]
    (by decide) 0 (by decide)).1.mpr (by decide)

/-- C10: on rows with pairwise-distinct headers the analyzer's
`numeric_columns` and `categorical_columns` key sets are disjoint and
together are exactly the headers. -/
theorem claim10_partition (headers : List String) (dataRows : List (List String))
    (hnd : headers.Nodup) :
    ∃ p, analyzeCsvRows (headers :: dataRows) = LocalAnalysis.ok p ∧
      (∀ k ∈ p.numeric_columns.map Prod.fst, k ∉ p.categorical_columns.map Prod.fst) ∧
      List.Perm (p.numeric_columns.map Prod.fst ++ p.categorical_columns.map Prod.fst)
        headers := by
  have hndsnd : (headers.enum.map Prod.snd).Nodup := by
    rw [List.enum_map_snd]
    exact hnd
  have hcond : ∀ p ∈ headers.enum, ((numColValue dataRows p).isSome = true ↔
      catColValue dataRows (numericColumnsOf headers dataRows) p = none) := by
    intro p hp
    obtain ⟨i0, h0⟩ := p
    have hlk : (numericColumnsOf headers dataRows).lookup h0
        = numColValue dataRows (i0, h0) := by
      rw [numericColumnsOf]
      exact dictFold_lookup _ _ hndsnd i0 h0 hp
    have hcatval : catColValue dataRows (numericColumnsOf headers dataRows) (i0, h0) =
        if ((numericColumnsOf headers dataRows).lookup h0).isSome = true then none
        else some (CatStats.mk (countsOf (colRaw dataRows i0)).length
          ((sortDesc (countsOf (colRaw dataRows i0))).take 5)) := rfl
    constructor
    · intro hs
      rw [hcatval, if_pos (by rw [hlk]; exact hs)]
    · intro hn
      by_cases hs : ((numericColumnsOf headers dataRows).lookup h0).isSome = true
      · rw [← hlk]
        exact hs
      · rw [hcatval, if_neg hs] at hn
        exact absurd hn (by simp)
  have hknum : (numericColumnsOf headers dataRows).map Prod.fst
      = headers.enum.filterMap (fun p => (numColValue dataRows p).map (fun _ => p.2)) := by
    rw [numericColumnsOf, dictFold_eq_filterMap _ _ hndsnd, List.map_filterMap]
    simp only [Option.map_map]
    rfl
  have hkcat : (categoricalColumnsOf headers dataRows
        (numericColumnsOf headers dataRows)).map Prod.fst
      = headers.enum.filterMap (fun p =>
          (catColValue dataRows (numericColumnsOf headers dataRows) p).map
            (fun _ => p.2)) := by
    rw [categoricalColumnsOf, dictFold_eq_filterMap _ _ hndsnd, List.map_filterMap]
    simp only [Option.map_map]
    rfl
  refine ⟨_, rfl, ?_, ?_⟩
  · show ∀ k ∈ (numericColumnsOf headers dataRows).map Prod.fst,
      k ∉ (categoricalColumnsOf headers dataRows
        (numericColumnsOf headers dataRows)).map Prod.fst
    intro k hk hkc
    have hs : ((numericColumnsOf headers dataRows).lookup k).isSome = true :=
      (lookup_isSome_iff _ _).mpr hk
    rw [hkcat] at hkc
    rcases List.mem_filterMap.mp hkc with ⟨p, hp, hpv⟩
    cases hcv : catColValue dataRows (numericColumnsOf headers dataRows) p with
    | none =>
      rw [hcv] at hpv
      exact absurd hpv (by simp)
    | some c =>
      rw [hcv] at hpv
      rw [Option.map_some'] at hpv
      obtain rfl : p.2 = k := Option.some.inj hpv
      obtain ⟨i0, h0⟩ := p
      have hlk : (numericColumnsOf headers dataRows).lookup h0
          = numColValue dataRows (i0, h0) := by
        rw [numericColumnsOf]
        exact dictFold_lookup _ _ hndsnd i0 h0 hp
      have := (hcond (i0, h0) hp).mp (by rw [← hlk]; exact hs)
      rw [this] at hcv
      exact absurd hcv (by simp)
  · show List.Perm ((numericColumnsOf headers dataRows).map Prod.fst ++
      (categoricalColumnsOf headers dataRows
        (numericColumnsOf headers dataRows)).map Prod.fst) headers
    rw [hknum, hkcat]
    have hpart := filterMap_partition_perm (numColValue dataRows)
      (catColValue dataRows (numericColumnsOf headers dataRows)) Prod.snd
      headers.enum hcond
    rw [List.enum_map_snd] at hpart
    exact hpart

theorem claim10_witness :
    ∃ p, analyzeCsvRows [["a", "b"], ["1", "x"]] = LocalAnalysis.ok p ∧
      (∀ k ∈ p.numeric_columns.map Prod.fst, k ∉ p.categorical_columns.map Prod.fst) ∧
      List.Perm (p.numeric_columns.map Prod.fst ++ p.categorical_columns.map Prod.fst)
        ["a", "b"] :=
  claim10_partition ["a", "b"] [["1", "x"]] (by decide)

end Fynn
